import Mathlib

/-!
# Verification of the dusudoku solver

A shallow embedding of `dusudoku.cpp`: a 9×9 sudoku solver consisting of an
input validator (`readInput`) and a recursive backtracking search (`solve`).
The C++ mutates a `sudoku` struct in place; here every operation takes the
state and returns the new state, and `solve` additionally returns the C++
function's boolean result.
-/

namespace Dusudoku

/-- ASCII code of a dash, `#define DASH 45` in the source. -/
def DASH : Nat := 45

/-- ASCII code of the character `0`, `#define NUMERAL_ZERO 48`. -/
def NUMERAL_ZERO : Nat := 48

/-- ASCII code of the character `9`, `#define NUMERAL_NINE 57`. -/
def NUMERAL_NINE : Nat := 57

/-- The solver state: `struct sudoku` from the source.  `grid` models
`int grid[81]`, and each `bitset<9>` is modelled as a `List Bool` of length 9
(bit `i` is entry `i`). -/
structure Sudoku where
  grid : List Nat
  columns : List (List Bool)
  rows : List (List Bool)
  subgrid : List (List Bool)
deriving DecidableEq, Repr

/-- The position → subgrid lookup table `ninths` from the source, verbatim. -/
def ninths : List Nat :=
  [0, 0, 0, 1, 1, 1, 2, 2, 2,
   0, 0, 0, 1, 1, 1, 2, 2, 2,
   0, 0, 0, 1, 1, 1, 2, 2, 2,
   3, 3, 3, 4, 4, 4, 5, 5, 5,
   3, 3, 3, 4, 4, 4, 5, 5, 5,
   3, 3, 3, 4, 4, 4, 5, 5, 5,
   6, 6, 6, 7, 7, 7, 8, 8, 8,
   6, 6, 6, 7, 7, 7, 8, 8, 8,
   6, 6, 6, 7, 7, 7, 8, 8, 8]

/-- `bitset::operator[]`: test bit `i` (out-of-range reads give `false`;
all uses in the source have `i < 9`). -/
def bsGet (b : List Bool) (i : Nat) : Bool := b.getD i false

/-- `bitset::set(i)`. -/
def bsSet (b : List Bool) (i : Nat) : List Bool := b.set i true

/-- `bitset::reset(i)`. -/
def bsReset (b : List Bool) (i : Nat) : List Bool := b.set i false

/-- Read bit `i` of the `j`-th bitset of a family (e.g. `s->columns[j][i]`). -/
def famGet (f : List (List Bool)) (j i : Nat) : Bool := bsGet (f.getD j []) i

/-- Set bit `i` of the `j`-th bitset of a family (e.g. `s->columns[j].set(i)`). -/
def famSet (f : List (List Bool)) (j i : Nat) : List (List Bool) :=
  f.set j (bsSet (f.getD j []) i)

/-- Clear bit `i` of the `j`-th bitset of a family (e.g. `s->columns[j].reset(i)`). -/
def famReset (f : List (List Bool)) (j i : Nat) : List (List Bool) :=
  f.set j (bsReset (f.getD j []) i)

/-- A `bitset<9>` with all bits clear: the state of each constraint set after
`sudoku s;` default-initialises the struct in `main`. -/
def emptyBitset : List Bool := List.replicate 9 false

/-- A family of nine all-clear `bitset<9>`s. -/
def emptySets : List (List Bool) := List.replicate 9 emptyBitset

/-- The solver state at the start of `main`: the three constraint-set families
are zero-initialised; the C++ grid array is indeterminate there, and since
`readInput` overwrites every cell it reaches we model it as all zeros. -/
def initialSudoku : Sudoku :=
  { grid := List.replicate 81 0,
    columns := emptySets, rows := emptySets, subgrid := emptySets }

/-! ## The input validator (`readInput`, source lines 114–160) -/

/-- An arbitrary default character (a space), used when reading past the end
of a character list in specifications. -/
def blankChar : Char := Char.ofNat 32

/-- The numeric value the loop body computes for a character: `0` for a dash,
otherwise a numeral's distance from NUMERAL_ZERO (so a zero also gives
`0` = empty). -/
def charVal (ch : Char) : Nat :=
  if ch.toNat ≠ DASH then ch.toNat - NUMERAL_ZERO else 0

/-- A character the validator accepts: a numeral from zero to nine, or a dash
(the negation of the rejection test on source line 123). -/
def charOk (ch : Char) : Prop :=
  (NUMERAL_ZERO ≤ ch.toNat ∧ ch.toNat ≤ NUMERAL_NINE) ∨ ch.toNat = DASH

instance (ch : Char) : Decidable (charOk ch) := by
  unfold charOk; infer_instance

/-- `s->grid[i] = num` (source line 132). -/
def writeCell (s : Sudoku) (i : Nat) (ch : Char) : Sudoku :=
  { s with grid := s.grid.set i (charVal ch) }

/-- Register digit `d` of cell `i` in all three constraint-set families
(source lines 153–155). -/
def registerCell (s : Sudoku) (i d : Nat) : Sudoku :=
  { s with columns := famSet s.columns (i % 9) (d - 1),
           rows := famSet s.rows (i / 9) (d - 1),
           subgrid := famSet s.subgrid (ninths.getD i 0) (d - 1) }

/-- Error message of source line 143 (duplicate in column, 1-based column). -/
def colDupMsg (ch : Char) (i : Nat) : String :=
  "The number " ++ toString (charVal ch) ++
    " appears more than once in column " ++ toString (i % 9 + 1)

/-- Error message of source line 146 (duplicate in row, 1-based row). -/
def rowDupMsg (ch : Char) (i : Nat) : String :=
  "The number " ++ toString (charVal ch) ++
    " appears more than once on row " ++ toString (i / 9 + 1)

/-- Error message of source line 149: a duplicate in the subgrid, but the
reported index is `c_i + 1` — the cell's 1-based **column**, not the subgrid
index (the quirk the spec points out). -/
def subDupMsg (ch : Char) (i : Nat) : String :=
  "The number " ++ toString (charVal ch) ++
    " appears more than once in subgrid " ++ toString (i % 9 + 1)

/-- One iteration of the `for` loop of `readInput` (source lines 121–157):
process character `ch` at flat position `i`.  The boolean is `false` when the
loop executes one of its `return false` statements; the `String` is the `err`
out-parameter (left untouched on success). -/
def readCell (ch : Char) (i : Nat) (s : Sudoku) (err : String) :
    Bool × Sudoku × String :=
  if (ch.toNat < NUMERAL_ZERO || NUMERAL_NINE < ch.toNat) && ch.toNat ≠ DASH then
    (false, s, "Invalid input character (" ++ String.singleton ch ++ ")")
  else if 0 < charVal ch then
    if famGet s.columns (i % 9) (charVal ch - 1) then
      (false, writeCell s i ch, colDupMsg ch i)
    else if famGet s.rows (i / 9) (charVal ch - 1) then
      (false, writeCell s i ch, rowDupMsg ch i)
    else if famGet s.subgrid (ninths.getD i 0) (charVal ch - 1) then
      (false, writeCell s i ch, subDupMsg ch i)
    else
      (true, registerCell (writeCell s i ch) i (charVal ch), err)
  else
    (true, writeCell s i ch, err)

/-- The `for` loop of `readInput` over the remaining characters, `i` being the
flat position of the first one. -/
def readLoop : List Char → Nat → Sudoku → String → Bool × Sudoku × String
  | [], _, s, err => (true, s, err)
  | ch :: cs, i, s, err =>
    match readCell ch i s err with
    | (true, s1, err1) => readLoop cs (i + 1) s1 err1
    | (false, s1, err1) => (false, s1, err1)

/-- `readInput` (source lines 114–160): length check, then the character loop. -/
def readInput (input : String) (s : Sudoku) (err : String) :
    Bool × Sudoku × String :=
  if input.length ≠ 81 then
    (false, s, "The expected input length is 81 characters")
  else
    readLoop input.toList 0 s err

/-! ## The backtracking solver (`solve`, source lines 166–202) -/

/-- The candidate-skip condition of the digit loop (source line 184):
digit `i+1` already appears in position `p`'s column, row or subgrid. -/
def conflict (s : Sudoku) (p i : Nat) : Bool :=
  famGet s.columns (p % 9) i || famGet s.rows (p / 9) i ||
    famGet s.subgrid (ninths.getD p 0) i

/-- Tentatively place digit `i+1` at position `p` (source lines 187–190):
set bit `i` in the three constraint sets and write `i+1` into the grid. -/
def place (s : Sudoku) (p i : Nat) : Sudoku :=
  { grid := s.grid.set p (i + 1),
    columns := famSet s.columns (p % 9) i,
    rows := famSet s.rows (p / 9) i,
    subgrid := famSet s.subgrid (ninths.getD p 0) i }

/-- Undo a tentative placement (source lines 195–198): clear bit `i` in the
three constraint sets and reset the grid cell to empty. -/
def unplace (s : Sudoku) (p i : Nat) : Sudoku :=
  { grid := s.grid.set p 0,
    columns := famReset s.columns (p % 9) i,
    rows := famReset s.rows (p / 9) i,
    subgrid := famReset s.subgrid (ninths.getD p 0) i }

mutual

/-- `solve` (source lines 166–202).  Returns the C++ boolean result together
with the state of the `sudoku` struct when the call returns.  The source only
ever calls it with `0 ≤ p ≤ 81`; the `81 < p` branch closes off positions the
C++ never reaches (indexing past the array there is undefined behaviour). -/
def solve (p : Nat) (s : Sudoku) : Bool × Sudoku :=
  if p = 81 then (true, s)
  else if _h81 : 81 < p then (false, s)
  else if 0 < s.grid.getD p 0 then solve (p + 1) s
  else tryDigit p 0 s
termination_by ((81 - p : Nat), 1, 0)

/-- The digit loop of `solve` (source lines 182–199), entered with loop
counter `i`: try digits `i+1, i+2, …, 9` at position `p` in ascending order.
On a failed recursive call the undo runs on the state that call returned.
The `81 ≤ p` guard is unreachable from `solve` (which only enters the loop
with `p < 81`). -/
def tryDigit (p i : Nat) (s : Sudoku) : Bool × Sudoku :=
  if _h81 : 81 ≤ p then (false, s)
  else if _h9 : 9 ≤ i then (false, s)
  else if conflict s p i then tryDigit p (i + 1) s
  else
    match solve (p + 1) (place s p i) with
    | (true, s2) => (true, s2)
    | (false, s2) => tryDigit p (i + 1) (unplace s2 p i)
termination_by ((81 - p : Nat), 0, 9 - i)

end

/-! ## A fuel-indexed runner for the solver

`solve` is defined by well-founded recursion, which the kernel cannot evaluate
directly.  `solveN` performs the same computation by structural recursion on an
explicit bound on the remaining recursion depth, with the digit loop rendered
as a fold over the loop counter values `0,…,8` (the C++ `for` loop).  `solveN`
with any fuel exceeding `81 - p` computes exactly `solve p s`; that equivalence
is also the formal content of the recursion-depth bound. -/

/-- One iteration of the digit loop as a fold step: `rec` is the recursive
call at position `p + 1`, `acc` carries the "already returned" flag and the
current state. -/
def digitStep (rec : Sudoku → Bool × Sudoku) (p : Nat)
    (acc : Bool × Sudoku) (i : Nat) : Bool × Sudoku :=
  match acc with
  | (true, s) => (true, s)
  | (false, s) =>
    if conflict s p i then (false, s)
    else
      match rec (place s p i) with
      | (true, s2) => (true, s2)
      | (false, s2) => (false, unplace s2 p i)

/-- Depth-bounded runner: `solveN n p s` equals `solve p s` whenever
`81 - p < n`.  With fuel `0` it gives up (returning `false` and the state
unchanged); one unit of fuel is consumed per recursion level. -/
def solveN : Nat → Nat → Sudoku → Bool × Sudoku
  | 0, _, s => (false, s)
  | n + 1, p, s =>
    if p = 81 then (true, s)
    else if 81 < p then (false, s)
    else if 0 < s.grid.getD p 0 then solveN n (p + 1) s
    else (List.range 9).foldl (digitStep (solveN n (p + 1)) p) (false, s)

/-! ## Shapes -/

/-- A well-formed constraint-set family: nine bitsets of nine bits each. -/
def FamShape (f : List (List Bool)) : Prop :=
  f.length = 9 ∧ ∀ b ∈ f, b.length = 9

/-- A well-formed solver state: an 81-cell grid and three well-formed
constraint-set families (the shape of the C++ `struct sudoku`). -/
def Shape (s : Sudoku) : Prop :=
  s.grid.length = 81 ∧ FamShape s.columns ∧ FamShape s.rows ∧ FamShape s.subgrid

instance (f : List (List Bool)) : Decidable (FamShape f) := by
  unfold FamShape; infer_instance

instance (s : Sudoku) : Decidable (Shape s) := by
  unfold Shape; infer_instance

/-! ## The grid/constraint-set synchronisation invariant -/

/-- Two positions share a row, column or subgrid. -/
def sameUnit (p q : Nat) : Prop :=
  p / 9 = q / 9 ∨ p % 9 = q % 9 ∨ ninths.getD p 0 = ninths.getD q 0

instance (p q : Nat) : Decidable (sameUnit p q) := by
  unfold sameUnit; infer_instance

/-- One constraint-set family is in exact sync with the filled cells among
positions `0, …, k-1` of the grid, where `u` maps a position to its family
index (column, row, or subgrid number): bit `d` of set `j` is on exactly when
some such cell holds digit `d+1` and lies in unit `j`. -/
def FamSync (u : Nat → Nat) (k : Nat) (f : List (List Bool)) (g : List Nat) : Prop :=
  ∀ j, j < 9 → ∀ d, d < 9 →
    (famGet f j d = true ↔ ∃ q, q < k ∧ u q = j ∧ g.getD q 0 = d + 1)

/-- Digits of filled cells among positions `0, …, k-1` are unique within a
row, column, and subgrid. -/
def UniqG (k : Nat) (g : List Nat) : Prop :=
  ∀ p, p < k → ∀ q, q < k → p ≠ q → sameUnit p q → g.getD p 0 ≠ 0 →
    g.getD p 0 ≠ g.getD q 0

/-- All cells hold values at most 9. -/
def CellsG (k : Nat) (g : List Nat) : Prop := ∀ q, q < k → g.getD q 0 ≤ 9

/-- The full invariant after the first `k` cells have been loaded: shape,
bounded cell values, the three constraint-set families in exact sync with the
grid, and unit-uniqueness of filled cells. -/
def LoopInv (k : Nat) (s : Sudoku) : Prop :=
  Shape s ∧ CellsG k s.grid ∧
  FamSync (· % 9) k s.columns s.grid ∧
  FamSync (· / 9) k s.rows s.grid ∧
  FamSync (fun q => ninths.getD q 0) k s.subgrid s.grid ∧
  UniqG k s.grid

/-- The invariant of a fully loaded, consistent solver state. -/
def Inv (s : Sudoku) : Prop := LoopInv 81 s

instance (u : Nat → Nat) (k : Nat) (f : List (List Bool)) (g : List Nat) :
    Decidable (FamSync u k f g) := by
  unfold FamSync; infer_instance

instance (k : Nat) (g : List Nat) : Decidable (UniqG k g) :=
  decidable_of_iff
    (∀ p, p < k → ∀ q, q < k → p ≠ q ∧ sameUnit p q ∧ g.getD p 0 ≠ 0 →
      g.getD p 0 ≠ g.getD q 0)
    ⟨fun h p hp q hq h1 h2 h3 => h p hp q hq ⟨h1, h2, h3⟩,
     fun h p hp q hq hc => h p hp q hq hc.1 hc.2.1 hc.2.2⟩

instance (k : Nat) (g : List Nat) : Decidable (CellsG k g) := by
  unfold CellsG; infer_instance

instance (k : Nat) (s : Sudoku) : Decidable (LoopInv k s) := by
  unfold LoopInv; infer_instance

instance (s : Sudoku) : Decidable (Inv s) := by
  unfold Inv; infer_instance

/-! ## Completions and the lexicographic order on grids -/

/-- A fully solved grid: 81 cells, all digits 1–9, no digit repeated within a
row, column or subgrid. -/
def IsSolution (g : List Nat) : Prop :=
  g.length = 81 ∧ (∀ p, p < 81 → 1 ≤ g.getD p 0 ∧ g.getD p 0 ≤ 9) ∧
  ∀ p, p < 81 → ∀ q, q < 81 → p ≠ q → sameUnit p q → g.getD p 0 ≠ g.getD q 0

/-- `g` agrees with `g0` on every filled cell of `g0`. -/
def ExtendsGrid (g0 g : List Nat) : Prop :=
  ∀ q, q < 81 → g0.getD q 0 ≠ 0 → g.getD q 0 = g0.getD q 0

/-- A valid completion of the puzzle stored in state `s`. -/
def Completion (s : Sudoku) (g : List Nat) : Prop :=
  IsSolution g ∧ ExtendsGrid s.grid g

/-- Lexicographic order on grids, comparing the 81 cell digits in flat
position order with digits ordered numerically. -/
def lexLe (g1 g2 : List Nat) : Prop :=
  g1 = g2 ∨ ∃ p, p < 81 ∧ (∀ q, q < p → g1.getD q 0 = g2.getD q 0) ∧
    g1.getD p 0 < g2.getD p 0

instance (g : List Nat) : Decidable (IsSolution g) :=
  decidable_of_iff
    (g.length = 81 ∧ (∀ p, p < 81 → 1 ≤ g.getD p 0 ∧ g.getD p 0 ≤ 9) ∧
      ∀ p, p < 81 → ∀ q, q < 81 → p ≠ q ∧ sameUnit p q → g.getD p 0 ≠ g.getD q 0)
    ⟨fun ⟨h1, h2, h3⟩ => ⟨h1, h2, fun p hp q hq ha hb => h3 p hp q hq ⟨ha, hb⟩⟩,
     fun ⟨h1, h2, h3⟩ => ⟨h1, h2, fun p hp q hq hc => h3 p hp q hq hc.1 hc.2⟩⟩

instance (s : Sudoku) (g : List Nat) : Decidable (Completion s g) := by
  unfold Completion ExtendsGrid; infer_instance

instance (g1 g2 : List Nat) : Decidable (lexLe g1 g2) := by
  unfold lexLe; infer_instance

instance (g0 g : List Nat) : Decidable (ExtendsGrid g0 g) := by
  unfold ExtendsGrid; infer_instance

/-! ## Forced moves: a uniqueness certificate for completions

A cell with exactly one candidate digit left must hold that digit in every
valid completion.  A chain of such forced moves that fills the whole grid
therefore proves the completion unique, without running the search. -/

/-- Digit `d` is blocked at position `p` in grid `g`: some other cell sharing
a row, column or subgrid with `p` already holds `d`. -/
def BlockedAt (g : List Nat) (p d : Nat) : Prop :=
  ∃ q, q < 81 ∧ q ≠ p ∧ sameUnit p q ∧ g.getD q 0 = d

instance (g : List Nat) (p d : Nat) : Decidable (BlockedAt g p d) := by
  unfold BlockedAt; infer_instance

/-- A pair `(p, d)` is a forced move in grid `g`: cell `p` is empty, `d` is a
digit 1–9, and every other digit is blocked at `p`, so every valid completion
agreeing with the filled cells of `g` must place `d` at `p`. -/
def ForcedMove (g : List Nat) (p d : Nat) : Prop :=
  p < 81 ∧ g.getD p 0 = 0 ∧ 1 ≤ d ∧ d ≤ 9 ∧
    ∀ e, e < 9 → e + 1 ≠ d → BlockedAt g p (e + 1)

instance (g : List Nat) (p d : Nat) : Decidable (ForcedMove g p d) := by
  unfold ForcedMove; infer_instance

/-- Apply a list of `(position, digit)` moves to a grid in order. -/
def applyMoves : List Nat → List (Nat × Nat) → List Nat
  | g, [] => g
  | g, m :: ms => applyMoves (g.set m.1 m.2) ms

/-- Each move of the list is forced in the grid reached by applying the moves
before it. -/
def ForcedChain : List Nat → List (Nat × Nat) → Prop
  | _, [] => True
  | g, m :: ms => ForcedMove g m.1 m.2 ∧ ForcedChain (g.set m.1 m.2) ms

instance forcedChainDecidable :
    (g : List Nat) → (ms : List (Nat × Nat)) → Decidable (ForcedChain g ms)
  | _, [] => isTrue True.intro
  | g, m :: ms =>
    @instDecidableAnd _ _ inferInstance (forcedChainDecidable (g.set m.1 m.2) ms)


/-! ## Concrete instances -/

set_option maxRecDepth 100000

set_option maxHeartbeats 4000000

/-- The example input from the repository README and the source header. -/
def testInput : String :=
  "53--7----6--195----98----6-8---6---34--8-3--17---2---6-6----28----419--5----8--79"

/-- The solved grid the README documents for `testInput`. -/
def solGrid : List Nat :=
  [5, 3, 4, 6, 7, 8, 9, 1, 2,
   6, 7, 2, 1, 9, 5, 3, 4, 8,
   1, 9, 8, 3, 4, 2, 5, 6, 7,
   8, 5, 9, 7, 6, 1, 4, 2, 3,
   4, 2, 6, 8, 5, 3, 7, 9, 1,
   7, 1, 3, 9, 2, 4, 8, 5, 6,
   9, 6, 1, 5, 3, 7, 2, 8, 4,
   2, 8, 7, 4, 1, 9, 6, 3, 5,
   3, 4, 5, 2, 8, 6, 1, 7, 9]

/-- The 51 naked-single moves `(position, digit)` that deterministically
complete the README puzzle: each cell has exactly one candidate left at the
point it is filled, so every completion must agree with every move. -/
def testMoves : List (Nat × Nat) :=
  [(40, 5), (48, 9), (58, 3), (59, 7), (62, 4), (70, 3), (22, 4), (23, 2),
   (26, 7), (30, 7), (37, 2), (43, 9), (57, 5), (63, 2), (65, 7), (69, 6),
   (77, 6), (78, 1), (3, 6), (5, 8), (8, 2), (16, 4), (17, 8), (18, 1),
   (21, 3), (24, 5), (33, 4), (38, 6), (42, 7), (51, 8), (52, 5), (54, 9),
   (56, 1), (64, 8), (72, 3), (75, 2), (2, 4), (6, 9), (7, 1), (10, 7),
   (11, 2), (15, 3), (32, 1), (34, 2), (46, 1), (47, 3), (50, 4), (74, 5),
   (28, 5), (29, 9), (73, 4)]


/-- `solGrid` with its last five cells blanked: a puzzle with a small search
space, used to exercise the solver in witnesses. -/
def easyInput : String :=
  "5346789126721953481983425678597614234268537917139248569615372842874196353452-----"

/-- A legal partial grid that admits no completion: row 1 holds 1–8 with its
ninth cell empty, and the 9 that cell would need is blocked by its column. -/
def unsolvableInput : String :=
  "12345678---------9---------------------------------------------------------------"

/-- A state whose cell 0 is empty while all nine bits of column 0's
constraint set are on: the digit loop rejects every candidate immediately. -/
def blockedSudoku : Sudoku :=
  { grid := List.replicate 81 0,
    columns := List.replicate 9 true :: List.replicate 8 emptyBitset,
    rows := emptySets, subgrid := emptySets }

/-- A state in which digit 5 is registered in column 1, row 1 and subgrid 1
simultaneously, for exercising the duplicate-check order. -/
def dupAllS : Sudoku :=
  { grid := List.replicate 81 0,
    columns := famSet emptySets 0 4,
    rows := famSet emptySets 0 4,
    subgrid := famSet emptySets 0 4 }

/-! ## Elementary facts about `List.getD` and `List.set` -/

theorem getD_set_eq {α : Type} (l : List α) (i : Nat) (v d : α) (h : i < l.length) :
    (l.set i v).getD i d = v := by
  induction l generalizing i with
  | nil => simp at h
  | cons a t ih =>
    cases i with
    | zero => simp [List.getD]
    | succ i =>
      simp only [List.set, List.getD_cons_succ]
      exact ih i (by simpa using h)

theorem getD_set_ne {α : Type} (l : List α) {i j : Nat} (v : α) (d : α) (h : i ≠ j) :
    (l.set i v).getD j d = l.getD j d := by
  induction l generalizing i j with
  | nil => simp
  | cons a t ih =>
    cases i with
    | zero =>
      cases j with
      | zero => exact absurd rfl h
      | succ j => simp [List.getD]
    | succ i =>
      cases j with
      | zero => simp [List.getD]
      | succ j =>
        simp only [List.set, List.getD_cons_succ]
        exact ih (fun hc => h (by simp [hc]))

theorem set_getD_self {α : Type} (l : List α) (i : Nat) (d : α) :
    l.set i (l.getD i d) = l := by
  induction l generalizing i with
  | nil => simp
  | cons a t ih =>
    cases i with
    | zero => simp [List.getD]
    | succ i => simp only [List.getD_cons_succ, List.set]; rw [ih]

theorem getD_set {α : Type} (l : List α) (i j : Nat) (v d : α) :
    (l.set i v).getD j d =
      if i = j ∧ i < l.length then v else l.getD j d := by
  by_cases hij : i = j
  · subst hij
    by_cases hlen : i < l.length
    · simp [hlen, getD_set_eq]
    · simp only [hlen, and_false, if_false]
      rw [List.set_eq_of_length_le (by omega)]
  · simp [hij, getD_set_ne l v d hij]

theorem famShape_famSet {f : List (List Bool)} (hf : FamShape f) (j i : Nat) :
    FamShape (famSet f j i) := by
  obtain ⟨hlen, hmem⟩ := hf
  refine ⟨by simp [famSet, hlen], ?_⟩
  by_cases hj : j < f.length
  · intro b hb
    rcases List.mem_or_eq_of_mem_set hb with h | h
    · exact hmem b h
    · subst h
      have h1 : f.getD j [] = f[j] := List.getD_eq_getElem f [] hj
      simp only [bsSet, List.length_set, h1]
      exact hmem _ (List.getElem_mem hj)
  · rw [famSet, List.set_eq_of_length_le (by omega)]
    exact hmem

theorem famShape_famReset {f : List (List Bool)} (hf : FamShape f) (j i : Nat) :
    FamShape (famReset f j i) := by
  obtain ⟨hlen, hmem⟩ := hf
  refine ⟨by simp [famReset, hlen], ?_⟩
  by_cases hj : j < f.length
  · intro b hb
    rcases List.mem_or_eq_of_mem_set hb with h | h
    · exact hmem b h
    · subst h
      have h1 : f.getD j [] = f[j] := List.getD_eq_getElem f [] hj
      simp only [bsReset, List.length_set, h1]
      exact hmem _ (List.getElem_mem hj)
  · rw [famReset, List.set_eq_of_length_le (by omega)]
    exact hmem

/-! ## Reading and writing constraint-set families -/

theorem bsGet_bsSet_self {b : List Bool} {i : Nat} (hi : i < b.length) :
    bsGet (bsSet b i) i = true := getD_set_eq b i true false hi

theorem bsGet_bsSet_ne (b : List Bool) {i i' : Nat} (h : i ≠ i') :
    bsGet (bsSet b i) i' = bsGet b i' := getD_set_ne b true false h

theorem famGet_famSet_self {f : List (List Bool)} (hf : FamShape f) {j i : Nat}
    (hj : j < 9) (hi : i < 9) : famGet (famSet f j i) j i = true := by
  obtain ⟨hlen, hmem⟩ := hf
  have hjl : j < f.length := by omega
  have hin : (f.getD j []).length = 9 := by
    rw [List.getD_eq_getElem f [] hjl]
    exact hmem _ (List.getElem_mem hjl)
  rw [famGet, famSet, getD_set]
  simp only [hjl, and_true, if_pos rfl]
  exact bsGet_bsSet_self (by omega)

theorem famGet_famSet_ne (f : List (List Bool)) {j i j' i' : Nat}
    (h : j ≠ j' ∨ i ≠ i') : famGet (famSet f j i) j' i' = famGet f j' i' := by
  rcases h with h | h
  · rw [famGet, famSet, getD_set, if_neg (by tauto), famGet]
  · rw [famGet, famSet, getD_set]
    split
    · next hc => rw [hc.1.symm, bsGet_bsSet_ne _ h, famGet]
    · rfl

theorem bsGet_bsReset_self (b : List Bool) (i : Nat) :
    bsGet (bsReset b i) i = false := by
  by_cases hi : i < b.length
  · exact getD_set_eq b i false false hi
  · rw [bsReset, List.set_eq_of_length_le (by omega), bsGet,
      List.getD_eq_default b false (by omega)]

theorem bsGet_bsReset_ne (b : List Bool) {i i' : Nat} (h : i ≠ i') :
    bsGet (bsReset b i) i' = bsGet b i' := getD_set_ne b false false h

theorem famGet_famReset_self (f : List (List Bool)) (j i : Nat) :
    famGet (famReset f j i) j i = false := by
  by_cases hjl : j < f.length
  · rw [famGet, famReset, getD_set, if_pos ⟨rfl, hjl⟩]
    exact bsGet_bsReset_self _ _
  · rw [famReset, List.set_eq_of_length_le (by omega)]
    show bsGet (f.getD j []) i = false
    rw [List.getD_eq_default f [] (by omega)]
    rfl

theorem famGet_famReset_ne (f : List (List Bool)) {j i j' i' : Nat}
    (h : j ≠ j' ∨ i ≠ i') : famGet (famReset f j i) j' i' = famGet f j' i' := by
  rcases h with h | h
  · rw [famGet, famReset, getD_set, if_neg (by tauto), famGet]
  · rw [famGet, famReset, getD_set]
    split
    · next hc => rw [hc.1.symm, bsGet_bsReset_ne _ h, famGet]
    · rfl

/-- Clearing a bit that was clear before it was set restores the family:
the exact set/reset symmetry the backtracking undo relies on. -/
theorem famReset_famSet {f : List (List Bool)} {j i : Nat}
    (h : famGet f j i = false) : famReset (famSet f j i) j i = f := by
  by_cases hjl : j < f.length
  · rw [famReset, famSet, getD_set, if_pos ⟨rfl, hjl⟩, List.set_set]
    have h2 : (f.getD j []).getD i false = false := h
    have hb : bsReset (bsSet (f.getD j []) i) i = f.getD j [] := by
      rw [bsSet, bsReset, List.set_set]
      calc (f.getD j []).set i false
          = (f.getD j []).set i ((f.getD j []).getD i false) := by rw [h2]
        _ = f.getD j [] := set_getD_self _ _ _
    rw [hb, set_getD_self f j []]
  · rw [famSet, List.set_eq_of_length_le (by omega), famReset,
      List.set_eq_of_length_le (by omega)]

theorem shape_place {s : Sudoku} (hs : Shape s) (p i : Nat) : Shape (place s p i) := by
  obtain ⟨hg, hc, hr, hb⟩ := hs
  exact ⟨by simp [place, hg], famShape_famSet hc _ _, famShape_famSet hr _ _,
    famShape_famSet hb _ _⟩

theorem shape_unplace {s : Sudoku} (hs : Shape s) (p i : Nat) : Shape (unplace s p i) := by
  obtain ⟨hg, hc, hr, hb⟩ := hs
  exact ⟨by simp [unplace, hg], famShape_famReset hc _ _, famShape_famReset hr _ _,
    famShape_famReset hb _ _⟩

/-! ## Step lemmas for `solve` and `tryDigit` -/

theorem solve_at_81 (s : Sudoku) : solve 81 s = (true, s) := by
  rw [solve.eq_def]; simp

theorem solve_skip {p : Nat} {s : Sudoku} (h1 : p < 81) (h2 : 0 < s.grid.getD p 0) :
    solve p s = solve (p + 1) s := by
  rw [solve.eq_def, if_neg (by omega : ¬p = 81), dif_neg (by omega : ¬81 < p), if_pos h2]

theorem solve_branch {p : Nat} {s : Sudoku} (h1 : p < 81) (h2 : s.grid.getD p 0 = 0) :
    solve p s = tryDigit p 0 s := by
  rw [solve.eq_def, if_neg (by omega : ¬p = 81), dif_neg (by omega : ¬81 < p),
    if_neg (by omega : ¬0 < s.grid.getD p 0)]

theorem tryDigit_stop {i : Nat} (h : 9 ≤ i) (p : Nat) (s : Sudoku) :
    tryDigit p i s = (false, s) := by
  rw [tryDigit.eq_def]
  by_cases hp : 81 ≤ p <;> simp [hp, h]

theorem tryDigit_skip {p i : Nat} {s : Sudoku} (h1 : p < 81) (h2 : i < 9)
    (h3 : conflict s p i = true) : tryDigit p i s = tryDigit p (i + 1) s := by
  rw [tryDigit.eq_def]
  simp [show ¬81 ≤ p by omega, show ¬9 ≤ i by omega, h3]

theorem tryDigit_try {p i : Nat} {s : Sudoku} (h1 : p < 81) (h2 : i < 9)
    (h3 : conflict s p i = false) :
    tryDigit p i s =
      match solve (p + 1) (place s p i) with
      | (true, s2) => (true, s2)
      | (false, s2) => tryDigit p (i + 1) (unplace s2 p i) := by
  rw [tryDigit.eq_def]
  simp [show ¬81 ≤ p by omega, show ¬9 ≤ i by omega, h3]

theorem tryDigit_try_true {p i : Nat} {s s2 : Sudoku} (h1 : p < 81) (h2 : i < 9)
    (h3 : conflict s p i = false) (h4 : solve (p + 1) (place s p i) = (true, s2)) :
    tryDigit p i s = (true, s2) := by
  rw [tryDigit_try h1 h2 h3, h4]

theorem tryDigit_try_false {p i : Nat} {s s2 : Sudoku} (h1 : p < 81) (h2 : i < 9)
    (h3 : conflict s p i = false) (h4 : solve (p + 1) (place s p i) = (false, s2)) :
    tryDigit p i s = tryDigit p (i + 1) (unplace s2 p i) := by
  rw [tryDigit_try h1 h2 h3, h4]

/-! ## The undo path restores the state exactly -/

/-- `unplace` is the exact inverse of `place` on a state whose cell `p` is
empty and where digit `i+1` conflicts with nothing at `p` — precisely the
situation in which the digit loop performs a tentative placement. -/
theorem unplace_place {s : Sudoku} {p i : Nat}
    (hcell : s.grid.getD p 0 = 0) (hconf : conflict s p i = false) :
    unplace (place s p i) p i = s := by
  have h3 : ((famGet s.columns (p % 9) i = false ∧ famGet s.rows (p / 9) i = false) ∧
      famGet s.subgrid (ninths.getD p 0) i = false) := by
    rw [conflict] at hconf
    simpa using hconf
  obtain ⟨⟨hc1, hc2⟩, hc3⟩ := h3
  obtain ⟨g, c, r, b⟩ := s
  have hg : g.getD p 0 = 0 := hcell
  simp only [place, unplace, Sudoku.mk.injEq]
  refine ⟨?_, ?_, ?_, ?_⟩
  · rw [List.set_set]
    calc g.set p 0 = g.set p (g.getD p 0) := by rw [hg]
      _ = g := set_getD_self _ _ _
  · exact famReset_famSet hc1
  · exact famReset_famSet hc2
  · exact famReset_famSet hc3

/-- If `solve p s` returns `false` then the state it leaves behind is exactly
the state it was given; likewise for the digit loop entered at an empty cell. -/
theorem solve_false_frame :
    ∀ (p : Nat) (s : Sudoku), (solve p s).1 = false → (solve p s).2 = s := by
  refine solve.induct
    (fun p s => (solve p s).1 = false → (solve p s).2 = s)
    (fun p i s => s.grid.getD p 0 = 0 →
      (tryDigit p i s).1 = false → (tryDigit p i s).2 = s)
    ?_ ?_ ?_ ?_ ?_ ?_ ?_ ?_ ?_
  · intro s
    rw [solve_at_81]
    simp
  · intro p s h81 hgt _
    rw [solve.eq_def]
    simp [h81, hgt]
  · intro p s h81 hgt hcell ih
    rw [solve_skip (by omega) hcell]
    exact ih
  · intro p s h81 hgt hcell ih
    rw [solve_branch (by omega) (by omega)]
    exact ih (by omega)
  · intro p i s hp _ _
    rw [tryDigit.eq_def]
    simp [hp]
  · intro p i s hp hi _ _
    rw [tryDigit_stop hi]
  · intro p i s hp hi hconf ih hcell
    rw [tryDigit_skip (by omega) (by omega) hconf]
    exact ih hcell
  · intro p i s hp hi hconf s2 hsolve _ hcell hfalse
    exfalso
    rw [tryDigit_try_true (by omega) (by omega) (by simpa using hconf) hsolve] at hfalse
    simp at hfalse
  · intro p i s hp hi hconf s2 hsolve ih1 ih2 hcell hfail
    have hconf' : conflict s p i = false := by simpa using hconf
    have hs2 : (solve (p + 1) (place s p i)).2 = place s p i := ih1 (by rw [hsolve])
    rw [hsolve] at hs2
    have hundo : unplace s2 p i = s := by
      rw [show s2 = place s p i from hs2]
      exact unplace_place hcell hconf'
    rw [tryDigit_try_false (by omega) (by omega) hconf' hsolve] at hfail ⊢
    rw [hundo] at hfail ih2 ⊢
    exact ih2 hcell hfail

/-! ## Frame properties of the search -/

/-- `solve` preserves the shape of the state. -/
theorem solve_shape :
    ∀ (p : Nat) (s : Sudoku), Shape s → Shape (solve p s).2 := by
  refine solve.induct
    (fun p s => Shape s → Shape (solve p s).2)
    (fun p i s => Shape s → Shape (tryDigit p i s).2)
    ?_ ?_ ?_ ?_ ?_ ?_ ?_ ?_ ?_
  · intro s hs
    rw [solve_at_81]; exact hs
  · intro p s h81 hgt hs
    rw [solve.eq_def, if_neg h81, dif_pos hgt]
    exact hs
  · intro p s h81 hgt hcell ih hs
    rw [solve_skip (by omega) hcell]; exact ih hs
  · intro p s h81 hgt hcell ih hs
    rw [solve_branch (by omega) (by omega)]; exact ih hs
  · intro p i s hp hs
    rw [tryDigit.eq_def, dif_pos hp]
    exact hs
  · intro p i s hp hi hs
    rw [tryDigit_stop hi]; exact hs
  · intro p i s hp hi hconf ih hs
    rw [tryDigit_skip (by omega) (by omega) hconf]; exact ih hs
  · intro p i s hp hi hconf s2 hsolve ih1 hs
    rw [tryDigit_try_true (by omega) (by omega) (by simpa using hconf) hsolve]
    have := ih1 (shape_place hs p i)
    rwa [hsolve] at this
  · intro p i s hp hi hconf s2 hsolve ih1 ih2 hs
    rw [tryDigit_try_false (by omega) (by omega) (by simpa using hconf) hsolve]
    have hs2 : Shape s2 := by
      have := ih1 (shape_place hs p i)
      rwa [hsolve] at this
    exact ih2 (shape_unplace hs2 p i)

/-- The search never touches grid cells before position `p`, nor cells that
are already filled: their values carry over to the returned state. -/
theorem solve_grid_frame :
    ∀ (p : Nat) (s : Sudoku) (q : Nat), q < p ∨ s.grid.getD q 0 ≠ 0 →
      (solve p s).2.grid.getD q 0 = s.grid.getD q 0 := by
  refine solve.induct
    (fun p s => ∀ q, q < p ∨ s.grid.getD q 0 ≠ 0 →
      (solve p s).2.grid.getD q 0 = s.grid.getD q 0)
    (fun p i s => s.grid.getD p 0 = 0 → ∀ q, q < p ∨ s.grid.getD q 0 ≠ 0 →
      (tryDigit p i s).2.grid.getD q 0 = s.grid.getD q 0)
    ?_ ?_ ?_ ?_ ?_ ?_ ?_ ?_ ?_
  · intro s q _
    rw [solve_at_81]
  · intro p s h81 hgt q _
    rw [solve.eq_def, if_neg h81, dif_pos hgt]
  · intro p s h81 hgt hcell ih q hq
    rw [solve_skip (by omega) hcell]
    exact ih q (by omega)
  · intro p s h81 hgt hcell ih q hq
    rw [solve_branch (by omega) (by omega)]
    exact ih (by omega) q hq
  · intro p i s hp _ q _
    rw [tryDigit.eq_def, dif_pos hp]
  · intro p i s hp hi _ q _
    rw [tryDigit_stop hi]
  · intro p i s hp hi hconf ih hcell q hq
    rw [tryDigit_skip (by omega) (by omega) hconf]
    exact ih hcell q hq
  · intro p i s hp hi hconf s2 hsolve ih1 hcell q hq
    rw [tryDigit_try_true (by omega) (by omega) (by simpa using hconf) hsolve]
    have hqp : q ≠ p := by
      rcases hq with h | h
      · omega
      · intro hc; rw [hc] at h; exact h hcell
    have hpg : (place s p i).grid.getD q 0 = s.grid.getD q 0 := by
      simp only [place]
      exact getD_set_ne _ _ _ (Ne.symm hqp)
    have := ih1 q (by
      rcases hq with h | h
      · exact Or.inl (by omega)
      · exact Or.inr (by rw [hpg]; exact h))
    rw [hsolve] at this
    show s2.grid.getD q 0 = s.grid.getD q 0
    rw [this, hpg]
  · intro p i s hp hi hconf s2 hsolve ih1 ih2 hcell q hq
    have hconf' : conflict s p i = false := by simpa using hconf
    have hs2 : (solve (p + 1) (place s p i)).2 = place s p i :=
      solve_false_frame _ _ (by rw [hsolve])
    rw [hsolve] at hs2
    have hundo : unplace s2 p i = s := by
      rw [show s2 = place s p i from hs2]
      exact unplace_place hcell hconf'
    rw [tryDigit_try_false (by omega) (by omega) hconf' hsolve]
    rw [hundo] at ih2 ⊢
    exact ih2 hcell q hq

/-- On success the search leaves every position from `p` on filled with a
nonzero digit (for a well-formed 81-cell grid). -/
theorem solve_fill :
    ∀ (p : Nat) (s : Sudoku), Shape s → (solve p s).1 = true →
      ∀ q, p ≤ q → q < 81 → (solve p s).2.grid.getD q 0 ≠ 0 := by
  refine solve.induct
    (fun p s => Shape s → (solve p s).1 = true →
      ∀ q, p ≤ q → q < 81 → (solve p s).2.grid.getD q 0 ≠ 0)
    (fun p i s => Shape s → s.grid.getD p 0 = 0 → (tryDigit p i s).1 = true →
      ∀ q, p ≤ q → q < 81 → (tryDigit p i s).2.grid.getD q 0 ≠ 0)
    ?_ ?_ ?_ ?_ ?_ ?_ ?_ ?_ ?_
  · intro s _ _ q hq1 hq2
    omega
  · intro p s h81 hgt _ htrue
    rw [solve.eq_def, if_neg h81, dif_pos hgt] at htrue
    simp at htrue
  · intro p s h81 hgt hcell ih hs htrue q hq1 hq2
    rw [solve_skip (by omega) hcell] at htrue ⊢
    rcases Nat.eq_or_lt_of_le hq1 with h | h
    · rw [show (solve (p + 1) s).2.grid.getD q 0 = s.grid.getD q 0 from
        solve_grid_frame _ _ q (Or.inl (by omega))]
      rw [← h]
      omega
    · exact ih hs htrue q (by omega) hq2
  · intro p s h81 hgt hcell ih hs htrue q hq1 hq2
    rw [solve_branch (by omega) (by omega)] at htrue ⊢
    exact ih hs (by omega) htrue q hq1 hq2
  · intro p i s hp _ _ htrue
    rw [tryDigit.eq_def, dif_pos hp] at htrue
    simp at htrue
  · intro p i s hp hi _ _ htrue
    rw [tryDigit_stop hi] at htrue
    simp at htrue
  · intro p i s hp hi hconf ih hs hcell htrue q hq1 hq2
    rw [tryDigit_skip (by omega) (by omega) hconf] at htrue ⊢
    exact ih hs hcell htrue q hq1 hq2
  · intro p i s hp hi hconf s2 hsolve ih1 hs hcell _ q hq1 hq2
    rw [tryDigit_try_true (by omega) (by omega) (by simpa using hconf) hsolve]
    have htrue2 : (solve (p + 1) (place s p i)).1 = true := by rw [hsolve]
    rcases Nat.eq_or_lt_of_le hq1 with h | h
    · have hfr : (solve (p + 1) (place s p i)).2.grid.getD q 0 =
          (place s p i).grid.getD q 0 :=
        solve_grid_frame _ _ q (Or.inl (by omega))
      rw [hsolve] at hfr
      show s2.grid.getD q 0 ≠ 0
      rw [hfr]
      simp only [place]
      rw [← h]
      rw [getD_set_eq _ _ _ _ (by rw [hs.1]; omega)]
      omega
    · have := ih1 (shape_place hs p i) htrue2 q (by omega) hq2
      rw [hsolve] at this
      exact this
  · intro p i s hp hi hconf s2 hsolve ih1 ih2 hs hcell htrue q hq1 hq2
    have hconf' : conflict s p i = false := by simpa using hconf
    have hs2 : (solve (p + 1) (place s p i)).2 = place s p i :=
      solve_false_frame _ _ (by rw [hsolve])
    rw [hsolve] at hs2
    have hundo : unplace s2 p i = s := by
      rw [show s2 = place s p i from hs2]
      exact unplace_place hcell hconf'
    rw [tryDigit_try_false (by omega) (by omega) hconf' hsolve] at htrue ⊢
    rw [hundo] at ih2 htrue ⊢
    exact ih2 hs hcell htrue q hq1 hq2

/-- Calling `solve` on a state whose cells from `p` on are all filled
immediately chains to the terminal case: it returns `true` and leaves the
state untouched. -/
theorem solve_all_filled :
    ∀ (k p : Nat) (s : Sudoku), p + k = 81 →
      (∀ q, p ≤ q → q < 81 → 0 < s.grid.getD q 0) → solve p s = (true, s) := by
  intro k
  induction k with
  | zero =>
    intro p s hp _
    have : p = 81 := by omega
    subst this
    exact solve_at_81 s
  | succ k ih =>
    intro p s hp hfill
    have hplt : p < 81 := by omega
    rw [solve_skip hplt (hfill p (le_refl p) hplt)]
    exact ih (p + 1) s (by omega) (fun q h1 h2 => hfill q (by omega) h2)

/-! ## The fuel-indexed runner computes `solve` -/

theorem foldl_digitStep_true (f : Sudoku → Bool × Sudoku) (p : Nat) (s : Sudoku) :
    ∀ l : List Nat, l.foldl (digitStep f p) (true, s) = (true, s) := by
  intro l
  induction l with
  | nil => rfl
  | cons a t ih => rw [List.foldl_cons]; exact ih

theorem foldl_digitStep_eq_tryDigit {p : Nat} (hp : p < 81) {n : Nat}
    (hrec : ∀ s', solveN n (p + 1) s' = solve (p + 1) s') :
    ∀ (k i : Nat) (s : Sudoku), i + k = 9 →
      (List.range' i k).foldl (digitStep (solveN n (p + 1)) p) (false, s) =
        tryDigit p i s := by
  intro k
  induction k with
  | zero =>
    intro i s hik
    rw [List.range', List.foldl_nil, tryDigit_stop (by omega)]
  | succ k ih =>
    intro i s hik
    rw [List.range', List.foldl_cons]
    by_cases hconf : conflict s p i = true
    · have hstep : digitStep (solveN n (p + 1)) p (false, s) i = (false, s) := by
        rw [digitStep, if_pos hconf]
      rw [hstep, ih (i + 1) s (by omega), tryDigit_skip hp (by omega) hconf]
    · have hconf' : conflict s p i = false := by simpa using hconf
      rcases hres : solve (p + 1) (place s p i) with ⟨b, s2⟩
      have hstep : digitStep (solveN n (p + 1)) p (false, s) i =
          if b then (true, s2) else (false, unplace s2 p i) := by
        rw [digitStep, if_neg hconf, hrec, hres]
        cases b <;> rfl
      cases b with
      | true =>
        rw [hstep, if_pos rfl, foldl_digitStep_true,
          tryDigit_try_true hp (by omega) hconf' hres]
      | false =>
        rw [hstep, if_neg (by simp), ih (i + 1) _ (by omega),
          tryDigit_try_false hp (by omega) hconf' hres]

/-- The runner with any fuel exceeding `81 - p` computes `solve p s`: the
recursion depth of the search from position `p` is bounded by `81 - p`, and in
particular `solve` always terminates (returning `false` once the finite search
space is exhausted). -/
theorem solveN_eq_solve :
    ∀ (n p : Nat) (s : Sudoku), 81 - p < n → solveN n p s = solve p s := by
  intro n
  induction n with
  | zero => intro p s h; omega
  | succ n ih =>
    intro p s h
    by_cases h81 : p = 81
    · subst h81
      rw [solveN, if_pos rfl, solve_at_81]
    · by_cases hgt : 81 < p
      · rw [solveN, if_neg h81, if_pos hgt, solve.eq_def, if_neg h81, dif_pos hgt]
      · by_cases hcell : 0 < s.grid.getD p 0
        · rw [solveN, if_neg h81, if_neg hgt, if_pos hcell,
            solve_skip (by omega) hcell]
          exact ih (p + 1) s (by omega)
        · rw [solveN, if_neg h81, if_neg hgt, if_neg hcell,
            solve_branch (by omega) (by omega)]
          rw [List.range_eq_range']
          exact foldl_digitStep_eq_tryDigit (by omega)
            (fun s' => ih (p + 1) s' (by omega)) 9 0 s (by omega)

/-! ## Branch lemmas for the validator's loop body -/

theorem charOk_not_cond {ch : Char} (h : charOk ch) :
    ¬(((ch.toNat < NUMERAL_ZERO || NUMERAL_NINE < ch.toNat) && ch.toNat ≠ DASH) = true) := by
  simp only [charOk, NUMERAL_ZERO, NUMERAL_NINE, DASH] at h
  simp only [NUMERAL_ZERO, NUMERAL_NINE, DASH, Bool.and_eq_true, Bool.or_eq_true,
    decide_eq_true_eq, ne_eq]
  omega

theorem readCell_invalid {ch : Char} (h : ¬charOk ch) (i : Nat) (s : Sudoku) (err : String) :
    readCell ch i s err =
      (false, s, "Invalid input character (" ++ String.singleton ch ++ ")") := by
  have hc : ((ch.toNat < NUMERAL_ZERO || NUMERAL_NINE < ch.toNat) && ch.toNat ≠ DASH) = true := by
    simp only [charOk, NUMERAL_ZERO, NUMERAL_NINE, DASH] at h
    simp only [NUMERAL_ZERO, NUMERAL_NINE, DASH, Bool.and_eq_true, Bool.or_eq_true,
      decide_eq_true_eq, ne_eq]
    omega
  rw [readCell, if_pos hc]

theorem readCell_empty {ch : Char} (h : charOk ch) (h0 : charVal ch = 0)
    (i : Nat) (s : Sudoku) (err : String) :
    readCell ch i s err = (true, writeCell s i ch, err) := by
  rw [readCell, if_neg (charOk_not_cond h), if_neg (by omega)]

theorem readCell_dupCol {ch : Char} {i : Nat} {s : Sudoku} (h : charOk ch)
    (h0 : 0 < charVal ch)
    (hcol : famGet s.columns (i % 9) (charVal ch - 1) = true) (err : String) :
    readCell ch i s err = (false, writeCell s i ch, colDupMsg ch i) := by
  rw [readCell, if_neg (charOk_not_cond h), if_pos h0, if_pos hcol]

theorem readCell_dupRow {ch : Char} {i : Nat} {s : Sudoku} (h : charOk ch)
    (h0 : 0 < charVal ch)
    (hcol : famGet s.columns (i % 9) (charVal ch - 1) = false)
    (hrow : famGet s.rows (i / 9) (charVal ch - 1) = true) (err : String) :
    readCell ch i s err = (false, writeCell s i ch, rowDupMsg ch i) := by
  rw [readCell, if_neg (charOk_not_cond h), if_pos h0,
    if_neg (by rw [hcol]; simp), if_pos hrow]

theorem readCell_dupSub {ch : Char} {i : Nat} {s : Sudoku} (h : charOk ch)
    (h0 : 0 < charVal ch)
    (hcol : famGet s.columns (i % 9) (charVal ch - 1) = false)
    (hrow : famGet s.rows (i / 9) (charVal ch - 1) = false)
    (hsub : famGet s.subgrid (ninths.getD i 0) (charVal ch - 1) = true) (err : String) :
    readCell ch i s err = (false, writeCell s i ch, subDupMsg ch i) := by
  rw [readCell, if_neg (charOk_not_cond h), if_pos h0,
    if_neg (by rw [hcol]; simp), if_neg (by rw [hrow]; simp), if_pos hsub]

theorem readCell_ok {ch : Char} {i : Nat} {s : Sudoku} (h : charOk ch)
    (h0 : 0 < charVal ch)
    (hcol : famGet s.columns (i % 9) (charVal ch - 1) = false)
    (hrow : famGet s.rows (i / 9) (charVal ch - 1) = false)
    (hsub : famGet s.subgrid (ninths.getD i 0) (charVal ch - 1) = false) (err : String) :
    readCell ch i s err = (true, registerCell (writeCell s i ch) i (charVal ch), err) := by
  rw [readCell, if_neg (charOk_not_cond h), if_pos h0,
    if_neg (by rw [hcol]; simp), if_neg (by rw [hrow]; simp), if_neg (by rw [hsub]; simp)]

/-- A failing loop body aborts `readLoop` with exactly its result: the first
violation found is the one reported, and validation stops there. -/
theorem readLoop_stops {ch : Char} {i : Nat} {s s1 : Sudoku} {err err1 : String}
    (h : readCell ch i s err = (false, s1, err1)) (cs : List Char) :
    readLoop (ch :: cs) i s err = (false, s1, err1) := by
  rw [readLoop, h]

theorem sameUnit_symm {p q : Nat} (h : sameUnit p q) : sameUnit q p := by
  rcases h with h | h | h
  · exact Or.inl h.symm
  · exact Or.inr (Or.inl h.symm)
  · exact Or.inr (Or.inr h.symm)

theorem ninths_lt (p : Nat) (hp : p < 81) : ninths.getD p 0 < 9 := by
  interval_cases p <;> decide

/-! ### Preservation lemmas for the invariant pieces -/

theorem famSync_set_ge {u : Nat → Nat} {k : Nat} {f : List (List Bool)} {g : List Nat}
    {t v : Nat} (ht : k ≤ t) (hsync : FamSync u k f g) :
    FamSync u k f (g.set t v) := by
  intro j hj d hd
  rw [hsync j hj d hd]
  constructor
  · rintro ⟨q, hq, hu, hv⟩
    exact ⟨q, hq, hu, by rw [getD_set_ne g v 0 (by omega)]; exact hv⟩
  · rintro ⟨q, hq, hu, hv⟩
    rw [getD_set_ne g v 0 (by omega)] at hv
    exact ⟨q, hq, hu, hv⟩

theorem famSync_skip {u : Nat → Nat} {k : Nat} {f : List (List Bool)} {g : List Nat}
    (hsync : FamSync u k f g) (hval : g.getD k 0 = 0) :
    FamSync u (k + 1) f g := by
  intro j hj d hd
  rw [hsync j hj d hd]
  constructor
  · rintro ⟨q, hq, hu, hv⟩
    exact ⟨q, by omega, hu, hv⟩
  · rintro ⟨q, hq, hu, hv⟩
    refine ⟨q, ?_, hu, hv⟩
    rcases Nat.lt_succ_iff_lt_or_eq.mp hq with h | h
    · exact h
    · subst h; rw [hval] at hv; omega

theorem famSync_extend {u : Nat → Nat} {k : Nat} {f : List (List Bool)} {g : List Nat}
    {d : Nat} (hu : u k < 9) (hf : FamShape f) (hd : d < 9)
    (hsync : FamSync u k f g) (hval : g.getD k 0 = d + 1) :
    FamSync u (k + 1) (famSet f (u k) d) g := by
  intro j hj d' hd'
  by_cases hcase : j = u k ∧ d' = d
  · obtain ⟨rfl, rfl⟩ := hcase
    rw [famGet_famSet_self hf hj hd']
    simp only [true_iff]
    exact ⟨k, by omega, rfl, hval⟩
  · rw [famGet_famSet_ne f (by tauto), hsync j hj d' hd']
    constructor
    · rintro ⟨q, hq, hu', hv⟩
      exact ⟨q, by omega, hu', hv⟩
    · rintro ⟨q, hq, hu', hv⟩
      refine ⟨q, ?_, hu', hv⟩
      rcases Nat.lt_succ_iff_lt_or_eq.mp hq with h | h
      · exact h
      · subst h
        rw [hval] at hv
        exact absurd ⟨hu'.symm, by omega⟩ hcase

theorem famSync_place_step {u : Nat → Nat} {f : List (List Bool)} {g : List Nat}
    {p i : Nat} (hu : u p < 9) (hf : FamShape f) (hi : i < 9) (hp : p < 81)
    (hlen : g.length = 81) (hcell : g.getD p 0 = 0) (hsync : FamSync u 81 f g) :
    FamSync u 81 (famSet f (u p) i) (g.set p (i + 1)) := by
  intro j hj d hd
  by_cases hcase : j = u p ∧ d = i
  · obtain ⟨rfl, rfl⟩ := hcase
    rw [famGet_famSet_self hf hj hd]
    simp only [true_iff]
    exact ⟨p, hp, rfl, getD_set_eq g p (d + 1) 0 (by omega)⟩
  · rw [famGet_famSet_ne f (by tauto), hsync j hj d hd]
    constructor
    · rintro ⟨q, hq, hu', hv⟩
      have hqp : q ≠ p := by
        intro h; subst h; rw [hcell] at hv; omega
      exact ⟨q, hq, hu', by rw [getD_set_ne g _ 0 (by omega)]; exact hv⟩
    · rintro ⟨q, hq, hu', hv⟩
      by_cases hqp : q = p
      · subst hqp
        rw [getD_set_eq g q (i + 1) 0 (by omega)] at hv
        exact absurd ⟨hu'.symm, by omega⟩ hcase
      · rw [getD_set_ne g _ 0 (by omega)] at hv
        exact ⟨q, hq, hu', hv⟩

theorem uniqG_set_ge {k t v : Nat} {g : List Nat} (ht : k ≤ t) (h : UniqG k g) :
    UniqG k (g.set t v) := by
  intro p hp q hq hne hunit
  rw [getD_set_ne g v 0 (by omega), getD_set_ne g v 0 (by omega)]
  exact h p hp q hq hne hunit

theorem uniqG_succ {k : Nat} {g : List Nat} (h : UniqG k g)
    (hnew : g.getD k 0 = 0 ∨
      ∀ q, q < k → sameUnit k q → g.getD q 0 ≠ g.getD k 0) :
    UniqG (k + 1) g := by
  intro p hp q hq hne hunit hnz
  rcases Nat.lt_succ_iff_lt_or_eq.mp hp with hp' | hp' <;>
    rcases Nat.lt_succ_iff_lt_or_eq.mp hq with hq' | hq'
  · exact h p hp' q hq' hne hunit hnz
  · subst hq'
    rcases hnew with h0 | hno
    · intro hc
      rw [h0] at hc
      exact hnz hc
    · intro hc
      exact hno p hp' (sameUnit_symm hunit) hc
  · subst hp'
    rcases hnew with h0 | hno
    · exact absurd h0 hnz
    · exact fun hc => hno q hq' hunit hc.symm
  · omega

theorem uniqG_place {g : List Nat} {p v : Nat} (hlen : g.length = 81) (_hp : p < 81)
    (huniq : UniqG 81 g) (_hcell : g.getD p 0 = 0) (_hv : v ≠ 0)
    (hno : ∀ q, q < 81 → q ≠ p → sameUnit p q → g.getD q 0 ≠ v) :
    UniqG 81 (g.set p v) := by
  intro a ha b hb hne hunit hnz
  by_cases hap : a = p
  · rw [hap] at hne hunit hnz ⊢
    rw [getD_set_eq g p v 0 (by omega), getD_set_ne g v 0 hne]
    exact (hno b hb (Ne.symm hne) hunit).symm
  · rw [getD_set_ne g v 0 (fun hc => hap hc.symm)] at hnz ⊢
    by_cases hbp : b = p
    · rw [hbp] at hne hunit ⊢
      rw [getD_set_eq g p v 0 (by omega)]
      exact hno a ha hne (sameUnit_symm hunit)
    · rw [getD_set_ne g v 0 (fun hc => hbp hc.symm)]
      exact huniq a ha b hb hne hunit hnz

theorem cellsG_set {k t v : Nat} {g : List Nat} (h : CellsG k g) (hv : v ≤ 9) :
    CellsG k (g.set t v) := by
  intro q hq
  rw [getD_set]
  split
  · exact hv
  · exact h q hq

/-! ## The validator maintains the invariant -/

theorem charVal_le {ch : Char} (h : charOk ch) : charVal ch ≤ 9 := by
  unfold charOk NUMERAL_ZERO NUMERAL_NINE DASH at h
  unfold charVal NUMERAL_ZERO DASH
  split <;> omega

/-- Writing the parsed value of cell `k` leaves the invariant over the first
`k` cells intact. -/
theorem loopInv_writeCell {k : Nat} {s : Sudoku} (ch : Char) (hinv : LoopInv k s) :
    LoopInv k (writeCell s k ch) := by
  obtain ⟨hshape, hcells, hc, hr, hb, hu⟩ := hinv
  refine ⟨⟨by simp [writeCell, hshape.1], hshape.2.1, hshape.2.2.1, hshape.2.2.2⟩, ?_, ?_, ?_, ?_, ?_⟩
  · intro q hq
    show (s.grid.set k (charVal ch)).getD q 0 ≤ 9
    rw [getD_set_ne s.grid _ 0 (by omega)]
    exact hcells q hq
  · exact famSync_set_ge (le_refl k) hc
  · exact famSync_set_ge (le_refl k) hr
  · exact famSync_set_ge (le_refl k) hb
  · exact uniqG_set_ge (le_refl k) hu

/-- Processing an empty cell (dash or `'0'`) extends the invariant to `k+1`. -/
theorem loopInv_step_empty {k : Nat} {s : Sudoku} {ch : Char} (hinv : LoopInv k s)
    (hk : k < 81) (h0 : charVal ch = 0) :
    LoopInv (k + 1) (writeCell s k ch) := by
  obtain ⟨hshape, hcells, hc, hr, hb, hu⟩ := loopInv_writeCell ch hinv
  have hlen : s.grid.length = 81 := hinv.1.1
  have hcellk : (writeCell s k ch).grid.getD k 0 = 0 := by
    show (s.grid.set k (charVal ch)).getD k 0 = 0
    rw [getD_set_eq s.grid k _ 0 (by omega), h0]
  refine ⟨hshape, ?_, famSync_skip hc hcellk, famSync_skip hr hcellk,
    famSync_skip hb hcellk, uniqG_succ hu (Or.inl hcellk)⟩
  intro q hq
  rcases Nat.lt_succ_iff_lt_or_eq.mp hq with h | h
  · exact hcells q h
  · subst h
    rw [hcellk]
    omega

/-- Processing a digit cell whose digit conflicts with nothing extends the
invariant to `k+1`, registering the digit in all three families. -/
theorem loopInv_step_ok {k : Nat} {s : Sudoku} {ch : Char} (hinv : LoopInv k s)
    (hk : k < 81) (hok : charOk ch) (h0 : 0 < charVal ch)
    (hcol : famGet s.columns (k % 9) (charVal ch - 1) = false)
    (hrow : famGet s.rows (k / 9) (charVal ch - 1) = false)
    (hsub : famGet s.subgrid (ninths.getD k 0) (charVal ch - 1) = false) :
    LoopInv (k + 1) (registerCell (writeCell s k ch) k (charVal ch)) := by
  obtain ⟨hshape, hcells, hc, hr, hb, hu⟩ := loopInv_writeCell ch hinv
  have hlen : s.grid.length = 81 := hinv.1.1
  have hv9 : charVal ch ≤ 9 := charVal_le hok
  have hcellk : (writeCell s k ch).grid.getD k 0 = (charVal ch - 1) + 1 := by
    show (s.grid.set k (charVal ch)).getD k 0 = charVal ch - 1 + 1
    rw [getD_set_eq s.grid k _ 0 (by omega)]
    omega
  have hcolnew : famGet (writeCell s k ch).columns (k % 9) (charVal ch - 1) = false := hcol
  have hrownew : famGet (writeCell s k ch).rows (k / 9) (charVal ch - 1) = false := hrow
  have hsubnew : famGet (writeCell s k ch).subgrid (ninths.getD k 0) (charVal ch - 1) = false := hsub
  refine ⟨?_, ?_, ?_, ?_, ?_, ?_⟩
  · exact ⟨by simp [registerCell, writeCell, hlen],
      famShape_famSet hshape.2.1 _ _, famShape_famSet hshape.2.2.1 _ _,
      famShape_famSet hshape.2.2.2 _ _⟩
  · intro q hq
    show (s.grid.set k (charVal ch)).getD q 0 ≤ 9
    rcases Nat.lt_succ_iff_lt_or_eq.mp hq with h | h
    · exact hcells q h
    · subst h
      rw [getD_set_eq s.grid q _ 0 (by omega)]
      exact hv9
  · exact famSync_extend (by omega) hshape.2.1 (by omega) hc hcellk
  · exact famSync_extend (by omega) hshape.2.2.1 (by omega) hr hcellk
  · exact famSync_extend (ninths_lt k hk) hshape.2.2.2 (by omega) hb hcellk
  · show UniqG (k + 1) (writeCell s k ch).grid
    refine uniqG_succ hu (Or.inr ?_)
    intro q hq hunit
    have hval : (writeCell s k ch).grid.getD k 0 = charVal ch := by
      show (s.grid.set k (charVal ch)).getD k 0 = charVal ch
      exact getD_set_eq s.grid k _ 0 (by omega)
    rw [hval]
    rcases hunit with h | h | h
    · have := (hr (k / 9) (by omega) (charVal ch - 1) (by omega)).mpr
      intro hc2
      have hb2 : famGet (writeCell s k ch).rows (k / 9) (charVal ch - 1) = true :=
        this ⟨q, hq, h.symm, by rw [hc2]; omega⟩
      rw [hrownew] at hb2
      exact Bool.false_ne_true hb2
    · have := (hc (k % 9) (by omega) (charVal ch - 1) (by omega)).mpr
      intro hc2
      have hb2 : famGet (writeCell s k ch).columns (k % 9) (charVal ch - 1) = true :=
        this ⟨q, hq, h.symm, by rw [hc2]; omega⟩
      rw [hcolnew] at hb2
      exact Bool.false_ne_true hb2
    · have := (hb (ninths.getD k 0) (ninths_lt k hk) (charVal ch - 1) (by omega)).mpr
      intro hc2
      have hb2 : famGet (writeCell s k ch).subgrid (ninths.getD k 0) (charVal ch - 1) = true :=
        this ⟨q, hq, h.symm, by rw [hc2]; omega⟩
      rw [hsubnew] at hb2
      exact Bool.false_ne_true hb2

/-- Anatomy of a successful loop iteration: the character was legal, `err`
was not touched, the parsed value was written into cell `k`, and for a digit
the three duplicate tests were negative and the digit was registered. -/
theorem readCell_true_cases {ch : Char} {k : Nat} {s s1 : Sudoku} {err err1 : String}
    (h : readCell ch k s err = (true, s1, err1)) :
    charOk ch ∧ err1 = err ∧
      (0 < charVal ch →
        s1 = registerCell (writeCell s k ch) k (charVal ch) ∧
        famGet s.columns (k % 9) (charVal ch - 1) = false ∧
        famGet s.rows (k / 9) (charVal ch - 1) = false ∧
        famGet s.subgrid (ninths.getD k 0) (charVal ch - 1) = false) ∧
      (charVal ch = 0 → s1 = writeCell s k ch) := by
  by_cases hok : charOk ch
  · by_cases h0 : 0 < charVal ch
    · rcases hcol : famGet s.columns (k % 9) (charVal ch - 1) with _ | _
      · rcases hrow : famGet s.rows (k / 9) (charVal ch - 1) with _ | _
        · rcases hsub : famGet s.subgrid (ninths.getD k 0) (charVal ch - 1) with _ | _
          · rw [readCell_ok hok h0 hcol hrow hsub err] at h
            obtain ⟨h1, h2⟩ := Prod.mk.injEq .. ▸ h
            obtain ⟨h3, h4⟩ := Prod.mk.injEq .. ▸ h2
            exact ⟨hok, h4.symm, fun _ => ⟨h3.symm, rfl, rfl, rfl⟩,
              fun hc => by omega⟩
          · rw [readCell_dupSub hok h0 hcol hrow hsub err] at h
            simp at h
        · rw [readCell_dupRow hok h0 hcol hrow err] at h
          simp at h
      · rw [readCell_dupCol hok h0 hcol err] at h
        simp at h
    · have h0' : charVal ch = 0 := by omega
      rw [readCell_empty hok h0' k s err] at h
      obtain ⟨h1, h2⟩ := Prod.mk.injEq .. ▸ h
      obtain ⟨h3, h4⟩ := Prod.mk.injEq .. ▸ h2
      exact ⟨hok, h4.symm, fun hc => by omega, fun _ => h3.symm⟩
  · rw [readCell_invalid hok k s err] at h
    simp at h

/-- A successful loop iteration writes the parsed value into cell `k` and
changes nothing else in the grid. -/
theorem readCell_true_grid {ch : Char} {k : Nat} {s s1 : Sudoku} {err err1 : String}
    (h : readCell ch k s err = (true, s1, err1)) :
    s1.grid = s.grid.set k (charVal ch) := by
  obtain ⟨hok, _, hpos, hzero⟩ := readCell_true_cases h
  by_cases h0 : 0 < charVal ch
  · rw [(hpos h0).1]
    rfl
  · rw [hzero (by omega)]
    rfl

/-- A successful loop iteration extends the invariant by one cell. -/
theorem loopInv_readCell {ch : Char} {k : Nat} {s s1 : Sudoku} {err err1 : String}
    (hinv : LoopInv k s) (hk : k < 81)
    (h : readCell ch k s err = (true, s1, err1)) : LoopInv (k + 1) s1 := by
  obtain ⟨hok, _, hpos, hzero⟩ := readCell_true_cases h
  by_cases h0 : 0 < charVal ch
  · obtain ⟨hs1, hcol, hrow, hsub⟩ := hpos h0
    rw [hs1]
    exact loopInv_step_ok hinv hk hok h0 hcol hrow hsub
  · rw [hzero (by omega)]
    exact loopInv_step_empty hinv hk (by omega)

/-- Anatomy of a failing loop iteration: either the character was illegal and
the state is untouched, or it was a digit and the duplicate check fired after
the grid cell had already been written. -/
theorem readCell_false_cases {ch : Char} {k : Nat} {s s1 : Sudoku} {err err1 : String}
    (h : readCell ch k s err = (false, s1, err1)) :
    (¬charOk ch ∧ s1 = s) ∨
      (charOk ch ∧ 0 < charVal ch ∧ s1 = writeCell s k ch) := by
  by_cases hok : charOk ch
  · by_cases h0 : 0 < charVal ch
    · rcases hcol : famGet s.columns (k % 9) (charVal ch - 1) with _ | _
      · rcases hrow : famGet s.rows (k / 9) (charVal ch - 1) with _ | _
        · rcases hsub : famGet s.subgrid (ninths.getD k 0) (charVal ch - 1) with _ | _
          · rw [readCell_ok hok h0 hcol hrow hsub err] at h
            simp at h
          · rw [readCell_dupSub hok h0 hcol hrow hsub err] at h
            obtain ⟨h1, h2⟩ := Prod.mk.injEq .. ▸ h
            obtain ⟨h3, h4⟩ := Prod.mk.injEq .. ▸ h2
            exact Or.inr ⟨hok, h0, h3.symm⟩
        · rw [readCell_dupRow hok h0 hcol hrow err] at h
          obtain ⟨h1, h2⟩ := Prod.mk.injEq .. ▸ h
          obtain ⟨h3, h4⟩ := Prod.mk.injEq .. ▸ h2
          exact Or.inr ⟨hok, h0, h3.symm⟩
      · rw [readCell_dupCol hok h0 hcol err] at h
        obtain ⟨h1, h2⟩ := Prod.mk.injEq .. ▸ h
        obtain ⟨h3, h4⟩ := Prod.mk.injEq .. ▸ h2
        exact Or.inr ⟨hok, h0, h3.symm⟩
    · rw [readCell_empty hok (by omega) k s err] at h
      simp at h
  · rw [readCell_invalid hok k s err] at h
    obtain ⟨h1, h2⟩ := Prod.mk.injEq .. ▸ h
    obtain ⟨h3, h4⟩ := Prod.mk.injEq .. ▸ h2
    exact Or.inl ⟨hok, h3.symm⟩

/-- A run of the validator loop that succeeds maintains the invariant through
every iteration and establishes it for all processed cells. -/
theorem readLoop_ok_inv :
    ∀ (cs : List Char) (k : Nat) (s : Sudoku) (err : String),
      k + cs.length ≤ 81 → LoopInv k s → (readLoop cs k s err).1 = true →
      LoopInv (k + cs.length) (readLoop cs k s err).2.1 := by
  intro cs
  induction cs with
  | nil =>
    intro k s err hb hinv _
    rw [readLoop]
    simpa using hinv
  | cons ch cs ih =>
    intro k s err hb hinv htrue
    rw [readLoop] at htrue ⊢
    rcases hrc : readCell ch k s err with ⟨b1, s1, err1⟩
    rw [hrc] at htrue
    cases b1 with
    | false => simp at htrue
    | true =>
      have hlen : k + (ch :: cs).length = k + 1 + cs.length := by
        simp [List.length_cons]
        omega
      rw [hlen]
      have hinv1 := loopInv_readCell hinv (by simp [List.length_cons] at hb; omega) hrc
      exact ih (k + 1) s1 err1 (by simp [List.length_cons] at hb ⊢; omega) hinv1 htrue

/-- Full characterisation of a failing validator loop: the loop fails at some
position `k + t`; every earlier character was legal and its parsed value was
written into its cell, the constraint sets reflect exactly the filled cells
before the failure point, cells beyond it are untouched, and at the failure
point either the character was illegal (cell untouched) or it was a digit
already present (its cell holds the offending digit). -/
theorem readLoop_false_spec :
    ∀ (cs : List Char) (k : Nat) (s : Sudoku) (err : String) (s' : Sudoku) (err' : String),
      readLoop cs k s err = (false, s', err') →
      k + cs.length ≤ 81 → LoopInv k s →
      ∃ t, t < cs.length ∧
        (∀ m, m < t → charOk (cs.getD m blankChar)) ∧
        (∀ q, q < k → s'.grid.getD q 0 = s.grid.getD q 0) ∧
        (∀ q, k ≤ q → q < k + t → s'.grid.getD q 0 = charVal (cs.getD (q - k) blankChar)) ∧
        (∀ q, k + t < q → s'.grid.getD q 0 = s.grid.getD q 0) ∧
        LoopInv (k + t) s' ∧
        ((¬charOk (cs.getD t blankChar) ∧ s'.grid.getD (k + t) 0 = s.grid.getD (k + t) 0) ∨
          (charOk (cs.getD t blankChar) ∧ 0 < charVal (cs.getD t blankChar) ∧
            s'.grid.getD (k + t) 0 = charVal (cs.getD t blankChar))) := by
  intro cs
  induction cs with
  | nil =>
    intro k s err s' err' heq _ _
    rw [readLoop] at heq
    simp at heq
  | cons ch cs ih =>
    intro k s err s' err' heq hb hinv
    have hk81 : k < 81 := by simp [List.length_cons] at hb; omega
    have hglen : s.grid.length = 81 := hinv.1.1
    rw [readLoop] at heq
    rcases hrc : readCell ch k s err with ⟨b1, s1, err1⟩
    rw [hrc] at heq
    cases b1 with
    | false =>
      obtain ⟨rfl, rfl⟩ : s1 = s' ∧ err1 = err' := by
        obtain ⟨h1, h2⟩ := Prod.mk.injEq .. ▸ heq
        obtain ⟨h3, h4⟩ := Prod.mk.injEq .. ▸ h2
        exact ⟨h3, h4⟩
      refine ⟨0, by simp, by omega, ?_⟩
      rcases readCell_false_cases hrc with ⟨hbad, rfl⟩ | ⟨hok, h0, rfl⟩
      · refine ⟨fun q _ => rfl, by omega, fun q _ => rfl, by simpa using hinv, ?_⟩
        exact Or.inl ⟨by simpa using hbad, rfl⟩
      · refine ⟨?_, by omega, ?_, ?_, ?_⟩
        · intro q hq
          exact getD_set_ne s.grid _ 0 (by omega)
        · intro q hq
          exact getD_set_ne s.grid _ 0 (by omega)
        · simpa using loopInv_writeCell ch hinv
        · refine Or.inr ⟨by simpa using hok, by simpa using h0, ?_⟩
          show (s.grid.set k (charVal ch)).getD (k + 0) 0 = charVal ((ch :: cs).getD 0 blankChar)
          rw [Nat.add_zero, List.getD_cons_zero]
          exact getD_set_eq s.grid k _ 0 (by omega)
    | true =>
      have hinv1 := loopInv_readCell hinv hk81 hrc
      have hgrid1 : s1.grid = s.grid.set k (charVal ch) := readCell_true_grid hrc
      have hok : charOk ch := (readCell_true_cases hrc).1
      obtain ⟨t, ht, hchars, hlow, hmid, hhigh, hinvt, hlast⟩ :=
        ih (k + 1) s1 err1 s' err' heq (by simp [List.length_cons] at hb ⊢; omega) hinv1
      refine ⟨t + 1, by simp [List.length_cons]; omega, ?_, ?_, ?_, ?_, ?_, ?_⟩
      · intro m hm
        cases m with
        | zero => simpa [List.getD_cons_zero] using hok
        | succ m => rw [List.getD_cons_succ]; exact hchars m (by omega)
      · intro q hq
        rw [hlow q (by omega), hgrid1]
        exact getD_set_ne s.grid _ 0 (by omega)
      · intro q hq1 hq2
        rcases Nat.eq_or_lt_of_le hq1 with h | h
        · rw [← h, Nat.sub_self, List.getD_cons_zero, hlow k (by omega), hgrid1]
          exact getD_set_eq s.grid k _ 0 (by omega)
        · have hidx : q - k = (q - (k + 1)) + 1 := by omega
          rw [hidx, List.getD_cons_succ]
          exact hmid q (by omega) (by omega)
      · intro q hq
        rw [hhigh q (by omega), hgrid1]
        exact getD_set_ne s.grid _ 0 (by omega)
      · have harith : k + (t + 1) = k + 1 + t := by omega
        rw [harith]
        exact hinvt
      · have harith : k + (t + 1) = k + 1 + t := by omega
        rw [harith, List.getD_cons_succ]
        rcases hlast with ⟨ha, hcellval⟩ | hR
        · refine Or.inl ⟨ha, ?_⟩
          rw [hcellval, hgrid1]
          exact getD_set_ne s.grid _ 0 (by omega)
        · exact Or.inr hR

/-! ## The search maintains the invariant -/

/-- Decomposition of a negative candidate-skip test. -/
theorem conflict_false_parts {s : Sudoku} {p i : Nat} (h : conflict s p i = false) :
    famGet s.columns (p % 9) i = false ∧ famGet s.rows (p / 9) i = false ∧
      famGet s.subgrid (ninths.getD p 0) i = false := by
  rw [conflict] at h
  constructor
  · exact (Bool.or_eq_false_iff.mp (Bool.or_eq_false_iff.mp h).1).1
  constructor
  · exact (Bool.or_eq_false_iff.mp (Bool.or_eq_false_iff.mp h).1).2
  · exact (Bool.or_eq_false_iff.mp h).2

/-- A tentative placement made by the digit loop keeps the state invariant:
grid and constraint sets stay in exact sync, and uniqueness is preserved
because the skipped conflict test guarantees the digit is new to all three
units. -/
theorem inv_place {s : Sudoku} {p i : Nat} (hinv : Inv s) (hp : p < 81) (hi : i < 9)
    (hcell : s.grid.getD p 0 = 0) (hconf : conflict s p i = false) :
    Inv (place s p i) := by
  obtain ⟨hshape, hcells, hc, hr, hb, hu⟩ := hinv
  obtain ⟨hcol, hrow, hsub⟩ := conflict_false_parts hconf
  have hlen : s.grid.length = 81 := hshape.1
  refine ⟨shape_place hshape p i, ?_, ?_, ?_, ?_, ?_⟩
  · exact cellsG_set hcells (by omega)
  · exact famSync_place_step (by omega) hshape.2.1 hi hp hlen hcell hc
  · exact famSync_place_step (by omega) hshape.2.2.1 hi hp hlen hcell hr
  · exact famSync_place_step (ninths_lt p hp) hshape.2.2.2 hi hp hlen hcell hb
  · refine uniqG_place hlen hp hu hcell (by omega) ?_
    intro q hq hqp hunit
    rcases hunit with h | h | h
    · intro hval
      have : famGet s.rows (p / 9) i = true :=
        (hr (p / 9) (by omega) i hi).mpr ⟨q, hq, h.symm, hval⟩
      rw [hrow] at this
      exact Bool.false_ne_true this
    · intro hval
      have : famGet s.columns (p % 9) i = true :=
        (hc (p % 9) (by omega) i hi).mpr ⟨q, hq, h.symm, hval⟩
      rw [hcol] at this
      exact Bool.false_ne_true this
    · intro hval
      have : famGet s.subgrid (ninths.getD p 0) i = true :=
        (hb (ninths.getD p 0) (ninths_lt p hp) i hi).mpr ⟨q, hq, h.symm, hval⟩
      rw [hsub] at this
      exact Bool.false_ne_true this

/-- The search maintains the full invariant: at every recursion level, the
state handed to the recursive call and the state handed back satisfy `Inv`. -/
theorem solve_inv :
    ∀ (p : Nat) (s : Sudoku), Inv s → Inv (solve p s).2 := by
  refine solve.induct
    (fun p s => Inv s → Inv (solve p s).2)
    (fun p i s => Inv s → s.grid.getD p 0 = 0 → Inv (tryDigit p i s).2)
    ?_ ?_ ?_ ?_ ?_ ?_ ?_ ?_ ?_
  · intro s hs
    rw [solve_at_81]; exact hs
  · intro p s h81 hgt hs
    rw [solve.eq_def, if_neg h81, dif_pos hgt]
    exact hs
  · intro p s h81 hgt hcell ih hs
    rw [solve_skip (by omega) hcell]; exact ih hs
  · intro p s h81 hgt hcell ih hs
    rw [solve_branch (by omega) (by omega)]; exact ih hs (by omega)
  · intro p i s hp hs _
    rw [tryDigit.eq_def, dif_pos hp]
    exact hs
  · intro p i s hp hi hs _
    rw [tryDigit_stop hi]; exact hs
  · intro p i s hp hi hconf ih hs hcell
    rw [tryDigit_skip (by omega) (by omega) hconf]; exact ih hs hcell
  · intro p i s hp hi hconf s2 hsolve ih1 hs hcell
    rw [tryDigit_try_true (by omega) (by omega) (by simpa using hconf) hsolve]
    have := ih1 (inv_place hs (by omega) (by omega) hcell (by simpa using hconf))
    rwa [hsolve] at this
  · intro p i s hp hi hconf s2 hsolve ih1 ih2 hs hcell
    have hconf' : conflict s p i = false := by simpa using hconf
    have hs2 : (solve (p + 1) (place s p i)).2 = place s p i :=
      solve_false_frame _ _ (by rw [hsolve])
    rw [hsolve] at hs2
    have hundo : unplace s2 p i = s := by
      rw [show s2 = place s p i from hs2]
      exact unplace_place hcell hconf'
    rw [tryDigit_try_false (by omega) (by omega) hconf' hsolve]
    rw [hundo] at ih2 ⊢
    exact ih2 hs hcell

theorem lexLe_refl (g : List Nat) : lexLe g g := Or.inl rfl

theorem lexLe_of_lt_at {g1 g2 : List Nat} {p : Nat} (hp : p < 81)
    (hagree : ∀ q, q < p → g1.getD q 0 = g2.getD q 0)
    (hlt : g1.getD p 0 < g2.getD p 0) : lexLe g1 g2 :=
  Or.inr ⟨p, hp, hagree, hlt⟩

theorem list_eq_of_getD {g1 g2 : List Nat} (h1 : g1.length = 81) (h2 : g2.length = 81)
    (h : ∀ q, q < 81 → g1.getD q 0 = g2.getD q 0) : g1 = g2 := by
  apply List.ext_getElem (by omega)
  intro i hi1 hi2
  have hq := h i (by omega)
  rwa [List.getD_eq_getElem g1 0 hi1, List.getD_eq_getElem g2 0 hi2] at hq

/-- A full grid satisfying the state invariant is a solution. -/
theorem filled_solution {s : Sudoku} (hinv : Inv s)
    (hfull : ∀ q, q < 81 → s.grid.getD q 0 ≠ 0) : IsSolution s.grid := by
  obtain ⟨hshape, hcells, _, _, _, hu⟩ := hinv
  refine ⟨hshape.1, ?_, ?_⟩
  · intro p hp
    have := hcells p hp
    have := hfull p hp
    omega
  · intro p hp q hq hne hunit
    exact hu p hp q hq hne hunit (hfull p hp)

/-- Any completion of a fully filled grid is that grid itself. -/
theorem completion_of_full_eq {s : Sudoku} {g : List Nat}
    (hlen : s.grid.length = 81)
    (hfull : ∀ q, q < 81 → s.grid.getD q 0 ≠ 0) (hg : Completion s g) :
    g = s.grid := by
  obtain ⟨⟨hglen, _, _⟩, hext⟩ := hg
  exact list_eq_of_getD hglen hlen (fun q hq => hext q hq (hfull q hq))

theorem place_grid_self {s : Sudoku} {p i : Nat} (hlen : s.grid.length = 81)
    (hp : p < 81) : (place s p i).grid.getD p 0 = i + 1 := by
  show (s.grid.set p (i + 1)).getD p 0 = i + 1
  exact getD_set_eq s.grid p (i + 1) 0 (by omega)

theorem place_grid_ne {s : Sudoku} {p i q : Nat} (hq : q ≠ p) :
    (place s p i).grid.getD q 0 = s.grid.getD q 0 := by
  show (s.grid.set p (i + 1)).getD q 0 = s.grid.getD q 0
  exact getD_set_ne s.grid (i + 1) 0 (fun hc => hq hc.symm)

/-- Completions of the state after a tentative placement are exactly the
completions of the original state that put digit `i+1` at position `p`. -/
theorem completion_place_iff {s : Sudoku} {p i : Nat} {g : List Nat}
    (hlen : s.grid.length = 81) (hp : p < 81) (hcell : s.grid.getD p 0 = 0) :
    Completion (place s p i) g ↔ Completion s g ∧ g.getD p 0 = i + 1 := by
  constructor
  · rintro ⟨hsol, hext⟩
    refine ⟨⟨hsol, ?_⟩, ?_⟩
    · intro q hq hnz
      have hqp : q ≠ p := fun hc => by rw [hc, hcell] at hnz; exact hnz rfl
      have := hext q hq (by rw [place_grid_ne hqp]; exact hnz)
      rwa [place_grid_ne hqp] at this
    · have := hext p hp (by rw [place_grid_self hlen hp]; omega)
      rwa [place_grid_self hlen hp] at this
  · rintro ⟨⟨hsol, hext⟩, hval⟩
    refine ⟨hsol, ?_⟩
    intro q hq hnz
    by_cases hqp : q = p
    · rw [hqp, place_grid_self hlen hp]
      exact hval
    · rw [place_grid_ne hqp] at hnz ⊢
      exact hext q hq hnz

/-- If the candidate-skip test fires, no completion can put digit `i+1` at
position `p`: the constraint sets are in sync with the grid, so some other
cell of the same unit already holds that digit. -/
theorem blocked_digit {s : Sudoku} {p i : Nat} (hinv : Inv s) (hp : p < 81)
    (hi : i < 9) (hcell : s.grid.getD p 0 = 0) (hconf : conflict s p i = true) :
    ∀ g, Completion s g → g.getD p 0 ≠ i + 1 := by
  obtain ⟨hshape, hcells, hc, hr, hb, hu⟩ := hinv
  intro g hg hval
  obtain ⟨⟨hglen, hgcells, hguniq⟩, hext⟩ := hg
  have hget : ∃ q, q < 81 ∧ sameUnit p q ∧ s.grid.getD q 0 = i + 1 := by
    rw [conflict] at hconf
    rcases Bool.or_eq_true_iff.mp hconf with h' | h'
    · rcases Bool.or_eq_true_iff.mp h' with h'' | h''
      · obtain ⟨q, hq, hu', hv⟩ := (hc (p % 9) (by omega) i hi).mp h''
        exact ⟨q, hq, Or.inr (Or.inl hu'.symm), hv⟩
      · obtain ⟨q, hq, hu', hv⟩ := (hr (p / 9) (by omega) i hi).mp h''
        exact ⟨q, hq, Or.inl hu'.symm, hv⟩
    · obtain ⟨q, hq, hu', hv⟩ := (hb (ninths.getD p 0) (ninths_lt p hp) i hi).mp h'
      exact ⟨q, hq, Or.inr (Or.inr hu'.symm), hv⟩
  obtain ⟨q, hq, hunit, hqval⟩ := hget
  have hqp : p ≠ q := by
    intro hc2
    rw [← hc2, hcell] at hqval
    omega
  have hgq : g.getD q 0 = i + 1 := by
    rw [hext q hq (by omega), hqval]
  exact hguniq p hp q hq hqp hunit (by rw [hval, hgq])

/-- Completeness and minimality of the search: from any invariant-satisfying
state whose cells before `p` are filled, `solve p` succeeds exactly when a
completion exists, and then returns the lexicographically smallest one. -/
theorem solve_complete_min :
    ∀ (p : Nat) (s : Sudoku), Inv s → p ≤ 81 → (∀ q, q < p → s.grid.getD q 0 ≠ 0) →
      (((∃ g, Completion s g) →
         (solve p s).1 = true ∧ Completion s ((solve p s).2.grid) ∧
         (∀ g, Completion s g → lexLe ((solve p s).2.grid) g)) ∧
       ((¬∃ g, Completion s g) → (solve p s).1 = false)) := by
  refine solve.induct
    (fun p s => Inv s → p ≤ 81 → (∀ q, q < p → s.grid.getD q 0 ≠ 0) →
      (((∃ g, Completion s g) →
         (solve p s).1 = true ∧ Completion s ((solve p s).2.grid) ∧
         (∀ g, Completion s g → lexLe ((solve p s).2.grid) g)) ∧
       ((¬∃ g, Completion s g) → (solve p s).1 = false)))
    (fun p i s => Inv s → (∀ q, q < p → s.grid.getD q 0 ≠ 0) →
        s.grid.getD p 0 = 0 →
      (((∃ g, Completion s g ∧ i + 1 ≤ g.getD p 0) →
         (tryDigit p i s).1 = true ∧ Completion s ((tryDigit p i s).2.grid) ∧
         (∀ g, Completion s g → i + 1 ≤ g.getD p 0 →
           lexLe ((tryDigit p i s).2.grid) g)) ∧
       ((¬∃ g, Completion s g ∧ i + 1 ≤ g.getD p 0) → (tryDigit p i s).1 = false)))
    ?_ ?_ ?_ ?_ ?_ ?_ ?_ ?_ ?_
  · intro s hinv _ hfull
    rw [solve_at_81]
    have hsol : Completion s s.grid :=
      ⟨filled_solution hinv (fun q hq => hfull q (by omega)),
       fun q _ _ => rfl⟩
    constructor
    · intro _
      refine ⟨rfl, hsol, ?_⟩
      intro g hg
      rw [completion_of_full_eq hinv.1.1 (fun q hq => hfull q (by omega)) hg]
      exact lexLe_refl _
    · intro hno
      exact absurd ⟨s.grid, hsol⟩ hno
  · intro p s h81 hgt _ hle _
    omega
  · intro p s h81 hgt hcell ih hinv hle hfull
    rw [solve_skip (by omega) hcell]
    refine ih hinv (by omega) ?_
    intro q hq
    rcases Nat.lt_succ_iff_lt_or_eq.mp hq with h | h
    · exact hfull q h
    · rw [h]; omega
  · intro p s h81 hgt hcell ih hinv hle hfull
    rw [solve_branch (by omega) (by omega)]
    have ihT := ih hinv hfull (by omega)
    constructor
    · rintro ⟨g, hg⟩
      have h1 : 1 ≤ g.getD p 0 := (hg.1.2.1 p (by omega)).1
      obtain ⟨ha, hb, hc⟩ := ihT.1 ⟨g, hg, by omega⟩
      refine ⟨ha, hb, ?_⟩
      intro g' hg'
      have h1' : 1 ≤ g'.getD p 0 := (hg'.1.2.1 p (by omega)).1
      exact hc g' hg' (by omega)
    · intro hno
      exact ihT.2 (fun ⟨g, hg, _⟩ => hno ⟨g, hg⟩)
  · intro p i s hp hinv hfull hcell
    rw [tryDigit.eq_def, dif_pos hp]
    constructor
    · rintro ⟨g, hg, hge⟩
      exfalso
      have hglen : g.length = 81 := hg.1.1
      have : g.getD p 0 = 0 := List.getD_eq_default g 0 (by omega)
      omega
    · intro _
      rfl
  · intro p i s hp hi hinv hfull hcell
    rw [tryDigit_stop hi]
    constructor
    · rintro ⟨g, hg, hge⟩
      exfalso
      have := (hg.1.2.1 p (by omega)).2
      omega
    · intro _
      rfl
  · intro p i s hp hi hconf ih hinv hfull hcell
    rw [tryDigit_skip (by omega) (by omega) hconf]
    have hblock := blocked_digit hinv (by omega) (by omega) hcell hconf
    have ihT := ih hinv hfull hcell
    constructor
    · rintro ⟨g, hg, hge⟩
      have hne := hblock g hg
      obtain ⟨ha, hb, hc⟩ := ihT.1 ⟨g, hg, by omega⟩
      refine ⟨ha, hb, ?_⟩
      intro g' hg' hge'
      have hne' := hblock g' hg'
      exact hc g' hg' (by omega)
    · intro hno
      exact ihT.2 (fun ⟨g, hg, hge⟩ => hno ⟨g, hg, by omega⟩)
  · intro p i s hp hi hconf s2 hsolve ih1 hinv hfull hcell
    have hconf' : conflict s p i = false := by simpa using hconf
    have hlen : s.grid.length = 81 := hinv.1.1
    have hinvp : Inv (place s p i) :=
      inv_place hinv (by omega) (by omega) hcell hconf'
    have hfullp : ∀ q, q < p + 1 → (place s p i).grid.getD q 0 ≠ 0 := by
      intro q hq
      rcases Nat.lt_succ_iff_lt_or_eq.mp hq with h | h
      · rw [place_grid_ne (by omega)]
        exact hfull q h
      · rw [h, place_grid_self hlen (by omega)]
        omega
    have ihS := ih1 hinvp (by omega) hfullp
    rw [tryDigit_try_true (by omega) (by omega) hconf' hsolve]
    have hexp : ∃ g, Completion (place s p i) g := by
      by_contra hno
      have hfalse := ihS.2 hno
      rw [hsolve] at hfalse
      simp at hfalse
    obtain ⟨_, hC0, hM0⟩ := ihS.1 hexp
    rw [hsolve] at hC0 hM0
    have hC : Completion (place s p i) s2.grid := hC0
    have hM : ∀ g, Completion (place s p i) g → lexLe s2.grid g := hM0
    have hCs := (completion_place_iff hlen (by omega) hcell).mp hC
    constructor
    · rintro ⟨g, hg, hge⟩
      refine ⟨rfl, hCs.1, ?_⟩
      intro g' hg' hge'
      rcases Nat.eq_or_lt_of_le hge' with heq | hlt
      · exact hM g' ((completion_place_iff hlen (by omega) hcell).mpr ⟨hg', heq.symm⟩)
      · refine lexLe_of_lt_at (show p < 81 by omega) ?_ ?_
        · intro q hq
          have h1 : s2.grid.getD q 0 = s.grid.getD q 0 :=
            hCs.1.2 q (by omega) (hfull q hq)
          have h2 : g'.getD q 0 = s.grid.getD q 0 := hg'.2 q (by omega) (hfull q hq)
          rw [h1, h2]
        · rw [hCs.2]
          omega
    · intro hno
      exact absurd ⟨s2.grid, hCs.1, by rw [hCs.2]⟩ hno
  · intro p i s hp hi hconf s2 hsolve ih1 ih2 hinv hfull hcell
    have hconf' : conflict s p i = false := by simpa using hconf
    have hlen : s.grid.length = 81 := hinv.1.1
    have hinvp : Inv (place s p i) :=
      inv_place hinv (by omega) (by omega) hcell hconf'
    have hfullp : ∀ q, q < p + 1 → (place s p i).grid.getD q 0 ≠ 0 := by
      intro q hq
      rcases Nat.lt_succ_iff_lt_or_eq.mp hq with h | h
      · rw [place_grid_ne (by omega)]
        exact hfull q h
      · rw [h, place_grid_self hlen (by omega)]
        omega
    have ihS := ih1 hinvp (by omega) hfullp
    have hnoc : ¬∃ g, Completion (place s p i) g := by
      intro hex
      have htrue := (ihS.1 hex).1
      rw [hsolve] at htrue
      simp at htrue
    have hno1 : ∀ g, Completion s g → g.getD p 0 ≠ i + 1 := by
      intro g hg hval
      exact hnoc ⟨g, (completion_place_iff hlen (by omega) hcell).mpr ⟨hg, hval⟩⟩
    have hs2 : (solve (p + 1) (place s p i)).2 = place s p i :=
      solve_false_frame _ _ (by rw [hsolve])
    rw [hsolve] at hs2
    have hundo : unplace s2 p i = s := by
      rw [show s2 = place s p i from hs2]
      exact unplace_place hcell hconf'
    rw [tryDigit_try_false (by omega) (by omega) hconf' hsolve, hundo]
    rw [hundo] at ih2
    have ihT := ih2 hinv hfull hcell
    constructor
    · rintro ⟨g, hg, hge⟩
      have hne := hno1 g hg
      obtain ⟨ha, hb, hc⟩ := ihT.1 ⟨g, hg, by omega⟩
      refine ⟨ha, hb, ?_⟩
      intro g' hg' hge'
      have hne' := hno1 g' hg'
      exact hc g' hg' (by omega)
    · intro hno
      exact ihT.2 (fun ⟨g, hg, hge⟩ => hno ⟨g, hg, by omega⟩)

/-! ### Soundness of forced-move chains -/

/-- A forced move is respected by every completion: after recording it in the
partial grid, every completion still agrees with every filled cell. -/
theorem forced_step {s : Sudoku} {g0 : List Nat} {p d : Nat}
    (hlen : g0.length = 81)
    (hagree : ∀ g, Completion s g → ∀ q, q < 81 → g0.getD q 0 ≠ 0 →
      g.getD q 0 = g0.getD q 0)
    (hforced : ForcedMove g0 p d) :
    ∀ g, Completion s g → ∀ q, q < 81 → (g0.set p d).getD q 0 ≠ 0 →
      g.getD q 0 = (g0.set p d).getD q 0 := by
  obtain ⟨hp, _hp0, hd1, _hd9, hblocked⟩ := hforced
  intro g hg q hq hne
  have hgc := hg
  obtain ⟨⟨_hglen, hgcells, hguniq⟩, _hext⟩ := hgc
  by_cases hqp : q = p
  · subst hqp
    rw [getD_set_eq g0 q d 0 (by omega)]
    obtain ⟨hv1, hv9⟩ := hgcells q hq
    by_contra hvd
    obtain ⟨q2, hq2, hq2ne, hq2unit, hq2val⟩ :=
      hblocked (g.getD q 0 - 1) (by omega) (by omega)
    have hgq2 : g.getD q2 0 = g.getD q 0 := by
      rw [hagree g hg q2 hq2 (by omega), hq2val]
      omega
    exact hguniq q hq q2 hq2 (fun h => hq2ne h.symm) hq2unit hgq2.symm
  · rw [getD_set_ne g0 d 0 (fun h => hqp h.symm)] at hne ⊢
    exact hagree g hg q hq hne

/-- Soundness of a forced chain: every completion agrees with every filled
cell of the grid the chain produces. -/
theorem forcedChain_agrees {s : Sudoku} (ms : List (Nat × Nat)) :
    ∀ g0 : List Nat, g0.length = 81 →
      (∀ g, Completion s g → ∀ q, q < 81 → g0.getD q 0 ≠ 0 →
        g.getD q 0 = g0.getD q 0) →
      ForcedChain g0 ms →
      ∀ g, Completion s g → ∀ q, q < 81 → (applyMoves g0 ms).getD q 0 ≠ 0 →
        g.getD q 0 = (applyMoves g0 ms).getD q 0 := by
  induction ms with
  | nil =>
    intro g0 _ hagree _
    exact hagree
  | cons m ms ih =>
    intro g0 hlen hagree hchain
    obtain ⟨hm, hrest⟩ := hchain
    exact ih (g0.set m.1 m.2) (by rw [List.length_set]; exact hlen)
      (forced_step hlen hagree hm) hrest

/-- A forced chain from the puzzle grid that fills the whole grid pins every
completion: the completion is unique. -/
theorem completion_unique {s : Sudoku} {ms : List (Nat × Nat)} {sol : List Nat}
    (hlen : s.grid.length = 81)
    (hchain : ForcedChain s.grid ms)
    (happly : applyMoves s.grid ms = sol)
    (hsl : sol.length = 81)
    (hfull : ∀ q, q < 81 → sol.getD q 0 ≠ 0) :
    ∀ g, Completion s g → g = sol := by
  intro g hg
  have hagree := forcedChain_agrees ms s.grid hlen
    (fun g hg q hq hnz => hg.2 q hq hnz) hchain g hg
  rw [happly] at hagree
  exact list_eq_of_getD hg.1.1 hsl (fun q hq => hagree q hq (hfull q hq))


/-! ## Concrete evaluations used by the claims -/

theorem initial_loopInv : LoopInv 0 initialSudoku := by decide

/-- A successful `readInput` from a state satisfying the initial loop
invariant establishes the full invariant. -/
theorem readInput_inv {input : String} {s0 : Sudoku} {err : String}
    (hinv : LoopInv 0 s0) (htrue : (readInput input s0 err).1 = true) :
    Inv (readInput input s0 err).2.1 := by
  rw [readInput] at htrue ⊢
  by_cases hlen : input.length ≠ 81
  · rw [if_pos hlen] at htrue
    simp at htrue
  · rw [if_neg hlen] at htrue ⊢
    have hl : input.toList.length = 81 := by
      have h81 : input.length = 81 := by omega
      rw [← h81]
      rfl
    have hres := readLoop_ok_inv input.toList 0 s0 err (by omega) hinv htrue
    rw [hl] at hres
    exact hres

theorem testState_read_true : (readInput testInput initialSudoku "").1 = true := by decide

theorem testState_inv : Inv (readInput testInput initialSudoku "").2.1 :=
  readInput_inv initial_loopInv testState_read_true

theorem easyState_read_true : (readInput easyInput initialSudoku "").1 = true := by decide

theorem easyState_inv : Inv (readInput easyInput initialSudoku "").2.1 :=
  readInput_inv initial_loopInv easyState_read_true

theorem unsolvState_read_true :
    (readInput unsolvableInput initialSudoku "").1 = true := by decide

theorem unsolvState_inv : Inv (readInput unsolvableInput initialSudoku "").2.1 :=
  readInput_inv initial_loopInv unsolvState_read_true

/-- The documented solution is a valid solved grid. -/
theorem solGrid_solution : IsSolution solGrid := by decide

theorem testState_completion :
    Completion (readInput testInput initialSudoku "").2.1 solGrid :=
  ⟨solGrid_solution, by decide⟩

theorem easyState_completion :
    Completion (readInput easyInput initialSudoku "").2.1 solGrid :=
  ⟨solGrid_solution, by decide⟩

theorem testState_grid_len :
    (readInput testInput initialSudoku "").2.1.grid.length = 81 :=
  testState_inv.1.1

/-- The naked-single chain for the README puzzle is valid. -/
theorem testState_chain :
    ForcedChain (readInput testInput initialSudoku "").2.1.grid testMoves := by decide

/-- The naked-single chain reproduces the documented solution. -/
theorem testState_apply :
    applyMoves (readInput testInput initialSudoku "").2.1.grid testMoves = solGrid := by
  decide

/-- The README puzzle has exactly one completion. -/
theorem testState_unique :
    ∀ g, Completion (readInput testInput initialSudoku "").2.1 g → g = solGrid :=
  completion_unique testState_grid_len testState_chain testState_apply
    (by decide) (by decide)

theorem easyState_solve_true :
    (solve 0 (readInput easyInput initialSudoku "").2.1).1 = true :=
  (((solve_complete_min 0 (readInput easyInput initialSudoku "").2.1 easyState_inv
      (by omega) (by intro q hq; omega)).1) ⟨solGrid, easyState_completion⟩).1

theorem unsolvState_solve_false :
    (solve 0 (readInput unsolvableInput initialSudoku "").2.1).1 = false := by
  rw [← solveN_eq_solve 82 0 _ (by omega)]
  decide

/-! ## The claims -/

/-- C2: for every position `p` and solver state `s`, if `solve p s` returns
`false` then the state it leaves behind is exactly the state at the moment of
the call — grid and all three constraint-set families unchanged, every
tentative placement exactly undone. -/
theorem claim_C2_failure_restores_state (p : Nat) (s : Sudoku)
    (h : (solve p s).1 = false) : (solve p s).2 = s :=
  solve_false_frame p s h

theorem claim_C2_failure_restores_state_witness :
    (solve 0 blockedSudoku).1 = false ∧ (solve 0 blockedSudoku).2 = blockedSudoku := by
  have hfalse : (solve 0 blockedSudoku).1 = false := by
    rw [← solveN_eq_solve 82 0 blockedSudoku (by omega)]
    decide
  exact ⟨hfalse, claim_C2_failure_restores_state 0 blockedSudoku hfalse⟩

/-- C4: the search terminates on every input with recursion depth bounded by
`81 - p` — running it on a fuel budget exceeding `81 - p` never exhausts the
fuel and computes `solve p s` — and on a puzzle with no completion it returns
`false` after exhausting the search space. -/
theorem claim_C4_terminates :
    (∀ (n p : Nat) (s : Sudoku), p ≤ 81 → 81 - p < n → solveN n p s = solve p s) ∧
    (∀ s : Sudoku, Inv s → ¬(∃ g, Completion s g) → (solve 0 s).1 = false) := by
  constructor
  · intro n p s _ h
    exact solveN_eq_solve n p s h
  · intro s hinv hno
    exact (solve_complete_min 0 s hinv (by omega) (by intro q hq; omega)).2 hno

theorem claim_C4_terminates_witness :
    (solveN 82 0 (readInput unsolvableInput initialSudoku "").2.1 =
      solve 0 (readInput unsolvableInput initialSudoku "").2.1) ∧
    (solve 0 (readInput unsolvableInput initialSudoku "").2.1).1 = false := by
  have h1 := claim_C4_terminates.1 82 0 (readInput unsolvableInput initialSudoku "").2.1
    (by omega) (by omega)
  have hinv : Inv (readInput unsolvableInput initialSudoku "").2.1 := unsolvState_inv
  have hfalse : (solve 0 (readInput unsolvableInput initialSudoku "").2.1).1 = false :=
    unsolvState_solve_false
  refine ⟨h1, ?_⟩
  refine claim_C4_terminates.2 _ hinv ?_
  intro hex
  have htrue := (solve_complete_min 0 _ hinv (by omega) (by intro q hq; omega)).1 hex
  rw [hfalse] at htrue
  exact absurd htrue.1 (by simp)

/-- C5: during validation, the duplicate checks for a digit cell run in the
fixed order column, row, subgrid; the first violation is reported (a column
duplicate wins even if the row and subgrid tests would also fire, a row
duplicate wins over a subgrid duplicate), and the loop stops at the failing
cell. -/
theorem claim_C5_check_order :
    ∀ (ch : Char) (i : Nat) (s : Sudoku) (err : String), charOk ch → 0 < charVal ch →
      (famGet s.columns (i % 9) (charVal ch - 1) = true →
        readCell ch i s err = (false, writeCell s i ch, colDupMsg ch i)) ∧
      (famGet s.columns (i % 9) (charVal ch - 1) = false →
        famGet s.rows (i / 9) (charVal ch - 1) = true →
        readCell ch i s err = (false, writeCell s i ch, rowDupMsg ch i)) ∧
      (famGet s.columns (i % 9) (charVal ch - 1) = false →
        famGet s.rows (i / 9) (charVal ch - 1) = false →
        famGet s.subgrid (ninths.getD i 0) (charVal ch - 1) = true →
        readCell ch i s err = (false, writeCell s i ch, subDupMsg ch i)) ∧
      (∀ (cs : List Char) (s1 : Sudoku) (err1 : String),
        readCell ch i s err = (false, s1, err1) →
        readLoop (ch :: cs) i s err = (false, s1, err1)) := by
  intro ch i s err hok h0
  exact ⟨fun hcol => readCell_dupCol hok h0 hcol err,
    fun hcol hrow => readCell_dupRow hok h0 hcol hrow err,
    fun hcol hrow hsub => readCell_dupSub hok h0 hcol hrow hsub err,
    fun cs s1 err1 h => readLoop_stops h cs⟩

theorem claim_C5_check_order_witness :
    readCell (Char.ofNat 53) 0 dupAllS "" =
      (false, writeCell dupAllS 0 (Char.ofNat 53), colDupMsg (Char.ofNat 53) 0) ∧
    readLoop [Char.ofNat 53] 0 dupAllS "" =
      (false, writeCell dupAllS 0 (Char.ofNat 53), colDupMsg (Char.ofNat 53) 0) := by
  have h := claim_C5_check_order (Char.ofNat 53) 0 dupAllS "" (by decide) (by decide)
  have hcell := h.1 (by decide)
  exact ⟨hcell, h.2.2.2 [] _ _ hcell⟩

/-- C6: when validation fails because the digit is already present in the
cell's subgrid (the column and row tests both negative), the error message
identifies the affected subgrid by the cell's 1-based column index
`i % 9 + 1` — not by the subgrid index. -/
theorem claim_C6_subgrid_msg_uses_column :
    ∀ (ch : Char) (i : Nat) (s : Sudoku) (err : String), charOk ch → 0 < charVal ch →
      famGet s.columns (i % 9) (charVal ch - 1) = false →
      famGet s.rows (i / 9) (charVal ch - 1) = false →
      famGet s.subgrid (ninths.getD i 0) (charVal ch - 1) = true →
      (readCell ch i s err).2.2 =
        "The number " ++ toString (charVal ch) ++
          " appears more than once in subgrid " ++ toString (i % 9 + 1) := by
  intro ch i s err hok h0 hcol hrow hsub
  rw [readCell_dupSub hok h0 hcol hrow hsub err]
  rfl

theorem claim_C6_subgrid_msg_uses_column_witness :
    (readCell (Char.ofNat 53) 1
      { grid := List.replicate 81 0, columns := emptySets, rows := emptySets,
        subgrid := famSet emptySets 0 4 } "").2.2 =
      "The number 5 appears more than once in subgrid 2" := by
  have h := claim_C6_subgrid_msg_uses_column (Char.ofNat 53) 1
    { grid := List.replicate 81 0, columns := emptySets, rows := emptySets,
      subgrid := famSet emptySets 0 4 } ""
    (by decide) (by decide) (by decide) (by decide) (by decide)
  rw [h]
  rfl

/-- C9: the search never modifies a pre-filled cell: every cell holding a
nonzero value when `solve 0 s` is called holds the same value when it
returns, whether the result is `true` or `false`. -/
theorem claim_C9_clues_preserved (s : Sudoku) (q : Nat)
    (h : s.grid.getD q 0 ≠ 0) :
    (solve 0 s).2.grid.getD q 0 = s.grid.getD q 0 :=
  solve_grid_frame 0 s q (Or.inr h)

theorem claim_C9_clues_preserved_witness :
    (solve 0 (readInput unsolvableInput initialSudoku "").2.1).2.grid.getD 17 0 =
      (readInput unsolvableInput initialSudoku "").2.1.grid.getD 17 0 :=
  claim_C9_clues_preserved (readInput unsolvableInput initialSudoku "").2.1 17
    (by decide)

/-- C1: the constraint sets stay in exact sync with the grid, and filled
cells stay unique within their row, column and subgrid, at every point of
validation and search: the loop invariant survives every validator
iteration, a successful `readInput` establishes the full invariant, every
tentative placement of the digit loop preserves it, and `solve` returns a
state satisfying it. -/
theorem claim_C1_sync_invariant :
    (∀ (cs : List Char) (k : Nat) (s : Sudoku) (err : String),
      k + cs.length ≤ 81 → LoopInv k s → (readLoop cs k s err).1 = true →
      LoopInv (k + cs.length) (readLoop cs k s err).2.1) ∧
    (∀ (input : String) (s0 : Sudoku) (err : String),
      LoopInv 0 s0 → (readInput input s0 err).1 = true →
      Inv (readInput input s0 err).2.1) ∧
    (∀ (p i : Nat) (s : Sudoku), Inv s → p < 81 → i < 9 → s.grid.getD p 0 = 0 →
      conflict s p i = false → Inv (place s p i)) ∧
    (∀ (p : Nat) (s : Sudoku), Inv s → Inv (solve p s).2) := by
  refine ⟨readLoop_ok_inv, ?_, ?_, solve_inv⟩
  · intro input s0 err hinv htrue
    exact readInput_inv hinv htrue
  · intro p i s hinv hp hi hcell hconf
    exact inv_place hinv hp hi hcell hconf

theorem claim_C1_sync_invariant_witness :
    Inv (readInput easyInput initialSudoku "").2.1 ∧
    Inv (solve 81 (readInput easyInput initialSudoku "").2.1).2 := by
  have h1 := claim_C1_sync_invariant.2.1 easyInput initialSudoku ""
    (by decide) easyState_read_true
  exact ⟨h1, claim_C1_sync_invariant.2.2.2 81 _ h1⟩

/-- C7: running the solver twice is idempotent: if the first call from a
well-formed state succeeds, a second call on the resulting state succeeds and
returns that state (and its grid) unchanged; if the first call fails, the
second call fails as well and leaves the state unchanged. -/
theorem claim_C7_idempotent (s : Sudoku) (hs : Shape s) :
    ((solve 0 s).1 = true →
      solve 0 (solve 0 s).2 = (true, (solve 0 s).2)) ∧
    ((solve 0 s).1 = false →
      solve 0 (solve 0 s).2 = (false, (solve 0 s).2)) := by
  constructor
  · intro htrue
    exact solve_all_filled 81 0 (solve 0 s).2 (by omega)
      (fun q h1 h2 => by
        have := solve_fill 0 s hs htrue q (by omega) h2
        omega)
  · intro hfalse
    have h2 := solve_false_frame 0 s hfalse
    rw [h2]
    exact Prod.ext_iff.mpr ⟨hfalse, h2⟩

theorem claim_C7_idempotent_witness :
    solve 0 (solve 0 (readInput easyInput initialSudoku "").2.1).2 =
      (true, (solve 0 (readInput easyInput initialSudoku "").2.1).2) := by
  exact (claim_C7_idempotent (readInput easyInput initialSudoku "").2.1
    easyState_inv.1).1 easyState_solve_true

/-- C8: whenever the validated state admits at least one valid completion,
the search succeeds and the grid it produces is the lexicographically
smallest valid completion, comparing the 81 cell digits in flat position
order. -/
theorem claim_C8_lex_smallest (s : Sudoku) (hinv : Inv s)
    (hex : ∃ g, Completion s g) :
    (solve 0 s).1 = true ∧ Completion s ((solve 0 s).2.grid) ∧
    ∀ g, Completion s g → lexLe ((solve 0 s).2.grid) g :=
  (solve_complete_min 0 s hinv (by omega) (by intro q hq; omega)).1 hex

theorem claim_C8_lex_smallest_witness :
    (solve 0 (readInput easyInput initialSudoku "").2.1).1 = true ∧
    Completion (readInput easyInput initialSudoku "").2.1
      ((solve 0 (readInput easyInput initialSudoku "").2.1).2.grid) ∧
    ∀ g, Completion (readInput easyInput initialSudoku "").2.1 g →
      lexLe ((solve 0 (readInput easyInput initialSudoku "").2.1).2.grid) g :=
  claim_C8_lex_smallest (readInput easyInput initialSudoku "").2.1
    easyState_inv ⟨solGrid, easyState_completion⟩

/-- C10: `readInput` is not atomic on failure.  If it fails inside the loop
on a length-81 input then there is a failure position `i < 81`: every earlier
character was legal and its parsed value has been written into cells
`0..i-1`, the constraint sets reflect exactly the filled cells among those
positions (the invariant holds up to `i`), cells beyond `i` are untouched,
and at `i` either the character was invalid and cell `i` is untouched, or it
was a digit whose duplicate check fired and cell `i` holds that digit. -/
theorem claim_C10_failure_partial_write :
    ∀ (input : String) (s0 : Sudoku) (err : String),
      input.length = 81 → LoopInv 0 s0 → (readInput input s0 err).1 = false →
      ∃ i, i < 81 ∧
        (∀ m, m < i → charOk (input.toList.getD m blankChar)) ∧
        (∀ q, q < i → (readInput input s0 err).2.1.grid.getD q 0 =
          charVal (input.toList.getD q blankChar)) ∧
        (∀ q, i < q → (readInput input s0 err).2.1.grid.getD q 0 =
          s0.grid.getD q 0) ∧
        LoopInv i (readInput input s0 err).2.1 ∧
        ((¬charOk (input.toList.getD i blankChar) ∧
            (readInput input s0 err).2.1.grid.getD i 0 = s0.grid.getD i 0) ∨
         (charOk (input.toList.getD i blankChar) ∧ 0 < charVal (input.toList.getD i blankChar) ∧
            (readInput input s0 err).2.1.grid.getD i 0 =
              charVal (input.toList.getD i blankChar))) := by
  intro input s0 err hlen hinv hfalse
  have hl : input.toList.length = 81 := by
    rw [← hlen]
    rfl
  rw [readInput, if_neg (by omega)] at hfalse ⊢
  have hfalse' : (readLoop input.toList 0 s0 err).1 = false := hfalse
  rcases hres : readLoop input.toList 0 s0 err with ⟨b, s', err'⟩
  rw [hres] at hfalse'
  cases b with
  | true => simp at hfalse'
  | false =>
    obtain ⟨t, ht, hchars, hlow, hmid, hhigh, hinvt, hlast⟩ :=
      readLoop_false_spec input.toList 0 s0 err s' err' hres (by omega) hinv
    refine ⟨t, by omega, hchars, ?_, ?_, ?_, ?_⟩
    · intro q hq
      have := hmid q (by omega) (by omega)
      rwa [Nat.sub_zero] at this
    · intro q hq
      exact hhigh q (by omega)
    · have h0t : 0 + t = t := by omega
      rw [h0t] at hinvt
      exact hinvt
    · have h0t : 0 + t = t := by omega
      rw [h0t] at hlast
      exact hlast

theorem claim_C10_failure_partial_write_witness :
    ∃ i, i < 81 ∧
      (∀ m, m < i →
        charOk (("55-------------------------------------------------------------------------------" : String).toList.getD m blankChar)) ∧
      (∀ q, q < i →
        (readInput "55-------------------------------------------------------------------------------" initialSudoku "").2.1.grid.getD q 0 =
          charVal (("55-------------------------------------------------------------------------------" : String).toList.getD q blankChar)) ∧
      (∀ q, i < q →
        (readInput "55-------------------------------------------------------------------------------" initialSudoku "").2.1.grid.getD q 0 =
          initialSudoku.grid.getD q 0) ∧
      LoopInv i (readInput "55-------------------------------------------------------------------------------" initialSudoku "").2.1 ∧
      ((¬charOk (("55-------------------------------------------------------------------------------" : String).toList.getD i blankChar) ∧
          (readInput "55-------------------------------------------------------------------------------" initialSudoku "").2.1.grid.getD i 0 =
            initialSudoku.grid.getD i 0) ∨
       (charOk (("55-------------------------------------------------------------------------------" : String).toList.getD i blankChar) ∧
        0 < charVal (("55-------------------------------------------------------------------------------" : String).toList.getD i blankChar) ∧
          (readInput "55-------------------------------------------------------------------------------" initialSudoku "").2.1.grid.getD i 0 =
            charVal (("55-------------------------------------------------------------------------------" : String).toList.getD i blankChar))) :=
  claim_C10_failure_partial_write
    "55-------------------------------------------------------------------------------"
    initialSudoku "" (by decide) (by decide) (by decide)

/-- C3: on the concrete README input, validation succeeds, the search
succeeds, and the resulting 81-cell grid is exactly the documented solution. -/
theorem claim_C3_end_to_end :
    (readInput testInput initialSudoku "").1 = true ∧
    (solve 0 (readInput testInput initialSudoku "").2.1).1 = true ∧
    (solve 0 (readInput testInput initialSudoku "").2.1).2.grid = solGrid := by
  have h := (solve_complete_min 0 (readInput testInput initialSudoku "").2.1
    testState_inv (by omega) (by intro q hq; omega)).1 ⟨solGrid, testState_completion⟩
  exact ⟨testState_read_true, h.1, testState_unique _ h.2.1⟩

end Dusudoku
